import Mathlib

/-!
Shallow embedding of the nperf sample-collation engine (`src/cmd_collate.rs`)
and of the binary loader (`src/binary.rs`), with proofs about the frame
classifier, the omit filter, the aggregator and the packet replay loop.

Machine integers (`u64`, `u32`) are modelled as `Nat`; the one subtraction
performed on `u64` values is modelled with explicit wrap-around (`sub64`).
Rust panics (slice indexing, `unwrap`, `expect`, explicit `panic`) are
modelled as `Except.error` carrying a `Panic` tag naming the panic site;
`Except.ok` is normal control flow.  Components of the crate that are not
part of the two embedded files (the `symbols`, `range_map`, `kallsyms`,
`address_space`, `elf` modules) are modelled from the specification, or kept
abstract as explicitly-passed oracle functions, as noted on each definition.
-/

namespace NPerf

/-- Identity key of a file-backed mapping (`archive::BinaryId`):
inode plus device major/minor numbers. -/
structure BinaryId where
  inode : Nat
  dev_major : Nat
  dev_minor : Nat
deriving DecidableEq

/-- The three user-symbol sources of `cmd_collate.rs` (`enum Table`). -/
inductive Table where
  | Debug
  | Original
  | AddressSpace
deriving DecidableEq

/-- Semantic stack frames (`enum Frame` of `cmd_collate.rs`). -/
inductive Frame where
  | Process (pid : Nat)
  | Thread (tid : Nat)
  | MainThread
  | User (addr : Nat)
  | UserBinary (id : BinaryId) (addr : Nat)
  | UserSymbol (id : BinaryId) (index : Nat) (source : Table)
  | Kernel (addr : Nat)
  | KernelSymbol (index : Nat)
deriving DecidableEq

/-- A symbol-table entry as exposed by a `Symbols` index: start value,
size, and name.  The `symbols` module is not part of the embedded sources;
this is the interface surface `cmd_collate.rs` consumes. -/
structure SymEntry where
  value : Nat
  size : Nat
  name : String
deriving DecidableEq

/-- A memory region (`maps::Region`), with a half-open address range. -/
structure Region where
  start : Nat
  stop : Nat
  is_read : Bool
  is_write : Bool
  is_executable : Bool
  is_shared : Bool
  file_offset : Nat
  inode : Nat
  major : Nat
  minor : Nat
  name : String
deriving DecidableEq

/-- One unwound user frame (`archive::UserFrame`): the return address and,
when known, the initial (pre-prologue) address of the function. -/
structure UserFrame where
  address : Nat
  initial_address : Option Nat
deriving DecidableEq

/-- Panic sites of the embedded code.  `Except.error` with one of these
tags models the corresponding Rust panic. -/
inductive Panic where
  | indexOutOfBounds
  | unwrapNone
  | noBaseAddress
  | rangeByOffset
  | duplicateRegion
  | unknownRegion
deriving DecidableEq

/-- Association-list lookup, modelling `HashMap::get`. -/
def assoc {α β : Type} [DecidableEq α] (l : List (α × β)) (k : α) : Option β :=
  (l.find? (fun e => decide (e.1 = k))).map (fun e => e.2)

/-- Association-list insert-or-replace, modelling `HashMap::insert`. -/
def assocSet {α β : Type} [DecidableEq α] : List (α × β) → α → β → List (α × β)
  | [], k, v => [(k, v)]
  | (k', v') :: rest, k, v =>
      if k' = k then (k, v) :: rest else (k', v') :: assocSet rest k v

/-- Association-list removal, modelling `HashMap::remove`. -/
def assocRemove {α β : Type} [DecidableEq α] : List (α × β) → α → List (α × β)
  | [], _ => []
  | (k', v') :: rest, k =>
      if k' = k then rest else (k', v') :: assocRemove rest k

/-- Wrapping `u64` subtraction: `a - b` modulo `2 ^ 64`, as performed by
`address - base_address` in `decode_user_frame`. -/
def sub64 (a b : Nat) : Nat :=
  (a + (2 ^ 64 - b % 2 ^ 64)) % 2 ^ 64

/-- Whether entry `i` of a symbol list exists and its half-open range
`[value, value + size)` contains `x`. -/
def entryContainsB (syms : List SymEntry) (i : Nat) (x : Nat) : Bool :=
  match syms.get? i with
  | some e => decide (e.value ≤ x) && decide (x < e.value + e.size)
  | none => false

/-- Modelled from the spec: `Symbols::get_symbol_index` (the `symbols`
module is not among the embedded sources).  Lookup by address returns the
highest-addressed entry whose `[value, value + size)` range contains the
query; entries are sorted by starting address, so this is the last
containing entry. -/
def getSymbolIndex (syms : List SymEntry) (x : Nat) : Option Nat :=
  (List.range syms.length).foldl
    (fun acc i => if entryContainsB syms i x then some i else acc) none

/-- Modelled from the spec: the name component of
`Symbols::get_symbol_by_index`. -/
def symName (syms : List SymEntry) (i : Nat) : String :=
  (((syms.get? i).map (fun e => e.name)).getD (""))

/-- The unwinder's preloaded symbol view
(`address_space::IAddressSpace::lookup_absolute_symbol_index` /
`get_symbol_by_index`).  Modelled from the spec: a fallback symbol source
keyed on absolute addresses; the per-binary entry lists are the abstract
state. -/
structure AddressSpaceModel where
  symbolsFor : BinaryId → List SymEntry

/-- A contiguous byte chunk collection (`struct BinaryChunks`). -/
structure BinaryChunks where
  chunks : List ((Nat × Nat) × List Nat)
deriving DecidableEq

/-- `BinaryChunks::add`: record `data` under the half-open byte range
starting at `offset`. -/
def BinaryChunks.addChunk (b : BinaryChunks) (offset : Nat) (data : List Nat) :
    BinaryChunks :=
  { chunks := b.chunks ++ [((offset, offset + data.length), data)] }

/-- `BinaryChunks::range_by_offset`: the range of the chunk whose start
equals `offset`; the source panics when no chunk starts there, modelled
as `none`. -/
def BinaryChunks.range_by_offset (b : BinaryChunks) (offset : Nat) :
    Option (Nat × Nat) :=
  (b.chunks.find? (fun c => decide (c.1.1 = offset))).map (fun c => c.1)

/-- A symbol-table descriptor (`binary::SymbolTable`). -/
structure SymbolTable where
  range : Nat × Nat
  strtab_range : Nat × Nat
  is_dynamic : Bool
deriving DecidableEq

/-- Per-binary symbol state (`struct Binary` of `cmd_collate.rs`).  The
built `Symbols` indices are modelled by their entry lists. -/
structure Binary where
  path : String
  basename : String
  string_tables : BinaryChunks
  symbol_table_count : Nat
  symbol_tables_chunks : BinaryChunks
  symbol_tables : List SymbolTable
  symbols : Option (List SymEntry)
  debug_symbols : Option (List SymEntry)
deriving DecidableEq

/-- Per-process replay state (`struct Process`). -/
structure Process where
  pid : Nat
  executable : String
  memory_regions : List Region
  base_address_for_binary : List (BinaryId × Nat)
  address_space_needs_reload : Bool

/-- Modelled from the spec: `RangeMap::get_value`, point lookup returning
the region whose half-open range contains the address (the `range_map`
module is not among the embedded sources; regions are non-overlapping). -/
def regionGet (regions : List Region) (addr : Nat) : Option Region :=
  regions.find? (fun r => decide (r.start ≤ addr) && decide (addr < r.stop))

/-- The `BinaryId` formed from a region's inode/major/minor, as built at
the top of `decode_user_frame`. -/
def regionBinaryId (region : Region) : BinaryId :=
  { inode := region.inode, dev_major := region.major, dev_minor := region.minor }

/-- The symbol-lookup key of `decode_user_frame`:
`initial_address.unwrap_or(address)`. -/
def effectiveAddress (uf : UserFrame) : Nat :=
  uf.initial_address.getD uf.address

/-- The omit-regex check performed after each successful symbol lookup in
`decode_user_frame`: a matching name discards the frame (and with it the
whole stack), otherwise the frame is kept.  The compiled regex is modelled
as a `String → Bool` predicate. -/
def omitCheck : Option (String → Bool) → String → Frame → Option Frame
  | some rx, symbolName, f => if rx symbolName then none else some f
  | none, _, f => some f

/-- The `AddressSpace` fallback source of `decode_user_frame`: lookup by
absolute address; on a miss (or with no address space) the frame degrades
to `UserBinary`. -/
def decodeAddressSpaceSource (omit_regex : Option (String → Bool))
    (address_space : Option AddressSpaceModel) (binary_id : BinaryId)
    (address : Nat) : Option Frame :=
  match address_space with
  | some asp =>
    match getSymbolIndex (asp.symbolsFor binary_id) address with
    | some index =>
        omitCheck omit_regex (symName (asp.symbolsFor binary_id) index)
          (Frame.UserSymbol binary_id index Table.AddressSpace)
    | none => some (Frame.UserBinary binary_id address)
  | none => some (Frame.UserBinary binary_id address)

/-- The `Original` source of `decode_user_frame`: the binary's own symbols,
looked up at `address - base_address` (the absent base panics, per the
`expect` in the source). -/
def decodeOriginalSource (omit_regex : Option (String → Bool))
    (address_space : Option AddressSpaceModel) (process : Process)
    (binary_id : BinaryId) (binary : Binary) (address : Nat) :
    Except Panic (Option Frame) :=
  match binary.symbols with
  | some symbols =>
    match assoc process.base_address_for_binary binary_id with
    | none => Except.error Panic.noBaseAddress
    | some base_address =>
      match getSymbolIndex symbols (sub64 address base_address) with
      | some index =>
          Except.ok (omitCheck omit_regex (symName symbols index)
            (Frame.UserSymbol binary_id index Table.Original))
      | none =>
          Except.ok (decodeAddressSpaceSource omit_regex address_space binary_id address)
  | none =>
      Except.ok (decodeAddressSpaceSource omit_regex address_space binary_id address)

/-- The `Debug` source of `decode_user_frame`: external debuginfo symbols,
looked up at `address - base_address`; on a miss control falls through to
the `Original` source. -/
def decodeDebugSource (omit_regex : Option (String → Bool))
    (address_space : Option AddressSpaceModel) (process : Process)
    (binary_id : BinaryId) (binary : Binary) (address : Nat) :
    Except Panic (Option Frame) :=
  match binary.debug_symbols with
  | some debug_symbols =>
    match assoc process.base_address_for_binary binary_id with
    | none => Except.error Panic.noBaseAddress
    | some base_address =>
      match getSymbolIndex debug_symbols (sub64 address base_address) with
      | some index =>
          Except.ok (omitCheck omit_regex (symName debug_symbols index)
            (Frame.UserSymbol binary_id index Table.Debug))
      | none =>
          decodeOriginalSource omit_regex address_space process binary_id binary address
  | none =>
      decodeOriginalSource omit_regex address_space process binary_id binary address

/-- `decode_user_frame` of `cmd_collate.rs`: classify one user frame.
`Except.ok none` is the Rust `None` (omit-filtered, stack discarded);
`Except.ok (some f)` is `Some(f)`; `Except.error` is a panic. -/
def decode_user_frame (omit_regex : Option (String → Bool))
    (address_space : Option AddressSpaceModel) (process : Process)
    (binary_by_id : List (BinaryId × Binary)) (user_frame : UserFrame) :
    Except Panic (Option Frame) :=
  let address := effectiveAddress user_frame
  match regionGet process.memory_regions address with
  | some region =>
    match assoc binary_by_id (regionBinaryId region) with
    | some binary =>
        decodeDebugSource omit_regex address_space process
          (regionBinaryId region) binary address
    | none => Except.ok (some (Frame.User address))
  | none => Except.ok (some (Frame.User address))

/-- Whether a frame is a kernel frame (`Kernel` or `KernelSymbol`). -/
def isKernelFrame : Frame → Bool
  | Frame.Kernel _ => true
  | Frame.KernelSymbol _ => true
  | _ => false

/-- A kernel symbol as stored in the kallsyms interval map
(`kallsyms::KernelSymbol`, not among the embedded sources). -/
structure KernelSymbolM where
  name : String
  module : Option String
deriving DecidableEq

/-- Modelled from the spec: `RangeMap::get_index`, the index of the entry
whose half-open range contains the point (used for kernel symbols). -/
def rangeGetIndex {α : Type} (m : List ((Nat × Nat) × α)) (addr : Nat) :
    Option Nat :=
  m.findIdx? (fun e => decide (e.1.1 ≤ addr) && decide (addr < e.1.2))

/-- The stack histogram: structural frame sequences mapped to counts
(`HashMap<Vec<Frame>, u64>`). -/
abbrev Histogram := List (List Frame × Nat)

/-- The Rust source's `*stackMap.entry(frames).or_insert(0) += 1`. -/
def bump : Histogram → List Frame → Histogram
  | [], k => [(k, 1)]
  | (k', n) :: rest, k =>
      if k' = k then (k', n + 1) :: rest else (k', n) :: bump rest k

/-- The count stored under a key (0 when absent). -/
def histCount (h : Histogram) (k : List Frame) : Nat :=
  (assoc h k).getD 0

/-- The sum of all counts of the histogram. -/
def histTotal (h : Histogram) : Nat :=
  (h.map (fun e => e.2)).sum

/-- The kernel half of `emit_frames`: each kernel backtrace address maps to
`KernelSymbol(index)` on a kallsyms hit, `Kernel(addr)` on a miss. -/
def kernelFrames (kallsyms : List ((Nat × Nat) × KernelSymbolM))
    (kernel_backtrace : List Nat) : List Frame :=
  kernel_backtrace.map (fun addr =>
    match rangeGetIndex kallsyms addr with
    | some index => Frame.KernelSymbol index
    | none => Frame.Kernel addr)

/-- The user half of `emit_frames`: decode each user frame in order;
`ok none` when any frame was omit-filtered (whole stack discarded),
an error when any decode panics. -/
def decodeAll (omit_regex : Option (String → Bool))
    (address_space : Option AddressSpaceModel) (process : Process)
    (binary_by_id : List (BinaryId × Binary)) :
    List UserFrame → Except Panic (Option (List Frame))
  | [] => Except.ok (some [])
  | uf :: rest =>
    match decode_user_frame omit_regex address_space process binary_by_id uf with
    | Except.error e => Except.error e
    | Except.ok none => Except.ok none
    | Except.ok (some f) =>
      match decodeAll omit_regex address_space process binary_by_id rest with
      | Except.error e => Except.error e
      | Except.ok none => Except.ok none
      | Except.ok (some fs) => Except.ok (some (f :: fs))

/-- `emit_frames` of `cmd_collate.rs`: build
`[kernel frames…, user frames…, thread marker, Process(pid)]` and increment
its histogram count; if any user frame was omit-filtered, return the
histogram unchanged. -/
def emit_frames (omit_regex : Option (String → Bool))
    (kallsyms : List ((Nat × Nat) × KernelSymbolM))
    (address_space : Option AddressSpaceModel)
    (binary_by_id : List (BinaryId × Binary)) (process : Process)
    (pid tid : Nat) (user_backtrace : List UserFrame)
    (kernel_backtrace : List Nat) (stackMap : Histogram) :
    Except Panic Histogram :=
  match decodeAll omit_regex address_space process binary_by_id user_backtrace with
  | Except.error e => Except.error e
  | Except.ok none => Except.ok stackMap
  | Except.ok (some userFrames) =>
      Except.ok (bump stackMap
        (kernelFrames kallsyms kernel_backtrace ++ userFrames ++
          [if pid = tid then Frame.MainThread else Frame.Thread tid,
           Frame.Process pid]))

/-- `machine_bitness` values (`archive::Bitness`). -/
inductive Bitness where
  | B32
  | B64
deriving DecidableEq

/-- Byte-order tag (`speedy::Endianness`). -/
inductive Endianness where
  | LittleEndian
  | BigEndian
deriving DecidableEq

/-- A preloaded binary registered from a `BinaryBlob` packet
(`binary::BinaryData`); the parsed ELF payload is abstracted away, only
the identity matters to the replay loop. -/
structure BinaryDataM where
  name : String
  id : BinaryId
deriving DecidableEq

/-- The archive packets consumed by `collate` (`archive::Packet`).  Byte
strings carrying text are modelled as `String`; raw byte payloads as
`List Nat`. -/
inductive Packet where
  | MachineInfo (architecture : String) (bitness : Bitness) (endianness : Endianness)
  | ProcessInfo (pid : Nat) (executable : String)
  | BinaryInfo (id : BinaryId) (symbol_table_count : Nat) (path : String)
      (debuglink : List Nat)
  | MemoryRegionMap (pid : Nat) (range_start range_stop : Nat)
      (is_read is_write is_executable is_shared : Bool)
      (file_offset inode major minor : Nat) (name : String)
  | MemoryRegionUnmap (pid : Nat) (range_start range_stop : Nat)
  | BinaryMap (pid : Nat) (id : BinaryId) (base_address : Nat)
  | BinaryUnmap (pid : Nat) (id : BinaryId)
  | StringTable (binary_id : BinaryId) (offset : Nat) (data : List Nat)
  | SymbolTable (binary_id : BinaryId) (offset : Nat) (data : List Nat)
      (string_table_offset : Nat) (is_dynamic : Bool)
  | Sample (pid tid : Nat) (user_backtrace : List UserFrame)
      (kernel_backtrace : List Nat)
  | RawSample (pid tid : Nat) (stack : List Nat) (regs : List (Nat × Nat))
      (kernel_backtrace : List Nat)
  | BinaryBlob (id : BinaryId) (path : String) (data : List Nat)
  | FileBlob (path : String) (data : List Nat)
  | ThreadName (tid : Nat) (name : String)
  | Other

/-- The configuration consumed by the replay loop (`struct Args`), minus
the filesystem-only members: the omit patterns appear as the compiled
regex predicate, and the debug-symbols directory scan result is passed to
`collate_run` separately. -/
structure Args where
  force_stack_size : Option Nat
  omit_regex : Option (String → Bool)
  only_sample : Option Nat
  without_kernel_callstacks : Bool

/-- Oracles for the collaborators of `collate` that are outside the
embedded sources: the DWARF unwinder (`AddressSpace::unwind`), the symbol
view after `AddressSpace::reload`, the `Symbols::load` builder, the
`BinaryData` parser for archive blobs, and the kallsyms parser.  Theorems
quantify over these, so nothing is assumed about them. -/
structure Oracles where
  unwind : List (Nat × Nat) → List Nat → List UserFrame
  reload : List BinaryId → List Region → BinaryId → List SymEntry
  loadSymbols : String → List SymbolTable → BinaryChunks → BinaryChunks → List SymEntry
  parseOwned : String → BinaryId → List Nat → Option BinaryDataM
  parseKallsyms : List Nat → List ((Nat × Nat) × KernelSymbolM)

/-- The mutable state of the `collate` packet loop. -/
structure CollateState where
  stackMap : Histogram
  processes : List Process
  process_index_by_pid : List (Nat × Nat)
  binary_by_id : List (BinaryId × Binary)
  machine_architecture : String
  machine_bitness : Bitness
  machine_endianness : Endianness
  kallsyms : List ((Nat × Nat) × KernelSymbolM)
  address_space : Option AddressSpaceModel
  sample_counter : Nat
  thread_names : List (Nat × String)
  binary_source_map : List (BinaryId × BinaryDataM)
  debug_symbols_map : List (List Nat × List SymEntry)

/-- `get_basename`: the path component after the last slash. -/
def get_basename (path : String) : String :=
  ((path.splitOn ("/")).getLast?).getD path

/-- Modelled from the spec: `RangeMap::push` rejects an overlapping range
(the replay loop turns the rejection into the `duplicate memory region`
panic). -/
def rangePush (regions : List Region) (r : Region) : Option (List Region) :=
  if regions.any (fun q => decide (r.start < q.stop) && decide (q.start < r.stop))
  then none
  else some (regions ++ [r])

/-- Modelled from the spec: `RangeMap::remove_by_exact_range` removes the
entry with exactly the given range and rejects a missing one. -/
def rangeRemove (regions : List Region) (s e : Nat) : Option (List Region) :=
  if regions.any (fun q => decide (q.start = s) && decide (q.stop = e))
  then some (regions.eraseP (fun q => decide (q.start = s) && decide (q.stop = e)))
  else none

/-- The body shared by the cooked-sample arm after the `only_sample`
check: index `processes[0]` (a panic on an empty process table), skip a
foreign pid, optionally clear the kernel backtrace, then aggregate. -/
def sampleBody (args : Args) (st : CollateState) (pid tid : Nat)
    (user_backtrace : List UserFrame) (kernel_backtrace : List Nat) :
    Except Panic CollateState :=
  match st.processes with
  | [] => Except.error Panic.indexOutOfBounds
  | process :: _ =>
    if process.pid ≠ pid then Except.ok st
    else
      let kbt := if args.without_kernel_callstacks then [] else kernel_backtrace
      match emit_frames args.omit_regex st.kallsyms none st.binary_by_id process
          pid tid user_backtrace kbt st.stackMap with
      | Except.error e => Except.error e
      | Except.ok stackMap' =>
          Except.ok { st with stackMap := stackMap',
                              sample_counter := st.sample_counter + 1 }

/-- The `Packet::Sample` arm of the `collate` loop. -/
def stepSample (args : Args) (st : CollateState) (pid tid : Nat)
    (user_backtrace : List UserFrame) (kernel_backtrace : List Nat) :
    Except Panic CollateState :=
  match args.only_sample with
  | some only_sample =>
    if only_sample ≠ st.sample_counter
    then Except.ok { st with sample_counter := st.sample_counter + 1 }
    else sampleBody args st pid tid user_backtrace kernel_backtrace
  | none => sampleBody args st pid tid user_backtrace kernel_backtrace

/-- The body of the raw-sample arm after the `only_sample` check: index
`processes[0]`, skip a foreign pid, optionally clear the kernel backtrace,
then (when an address space exists) reload it if stale, unwind the raw
stack through the oracle, and aggregate; the sample counter is incremented
even when no address space exists. -/
def rawSampleBody (args : Args) (oracle : Oracles) (st : CollateState)
    (pid tid : Nat) (stack : List Nat) (regs : List (Nat × Nat))
    (kernel_backtrace : List Nat) : Except Panic CollateState :=
  match st.processes with
  | [] => Except.error Panic.indexOutOfBounds
  | process :: restProcesses =>
    if process.pid ≠ pid then Except.ok st
    else
      let kbt := if args.without_kernel_callstacks then [] else kernel_backtrace
      match st.address_space with
      | none => Except.ok { st with sample_counter := st.sample_counter + 1 }
      | some asp =>
        let asp' := if process.address_space_needs_reload
          then { symbolsFor := oracle.reload (st.binary_source_map.map (fun e => e.1))
                   process.memory_regions }
          else asp
        let process' := if process.address_space_needs_reload
          then { process with address_space_needs_reload := false }
          else process
        let stack' := match args.force_stack_size with
          | some n => stack.take (min n stack.length)
          | none => stack
        let user_backtrace := oracle.unwind regs stack'
        match emit_frames args.omit_regex st.kallsyms (some asp') st.binary_by_id
            process' pid tid user_backtrace kbt st.stackMap with
        | Except.error e => Except.error e
        | Except.ok stackMap' =>
            Except.ok { st with stackMap := stackMap',
                                processes := process' :: restProcesses,
                                address_space := some asp',
                                sample_counter := st.sample_counter + 1 }

/-- The `Packet::RawSample` arm of the `collate` loop. -/
def stepRawSample (args : Args) (oracle : Oracles) (st : CollateState)
    (pid tid : Nat) (stack : List Nat) (regs : List (Nat × Nat))
    (kernel_backtrace : List Nat) : Except Panic CollateState :=
  match args.only_sample with
  | some only_sample =>
    if only_sample ≠ st.sample_counter
    then Except.ok { st with sample_counter := st.sample_counter + 1 }
    else rawSampleBody args oracle st pid tid stack regs kernel_backtrace
  | none => rawSampleBody args oracle st pid tid stack regs kernel_backtrace

/-- One iteration of the `collate` packet loop. -/
def collate_step (args : Args) (oracle : Oracles) (st : CollateState) :
    Packet → Except Panic CollateState
  | Packet.MachineInfo architecture bitness endianness =>
      Except.ok { st with
        address_space :=
          if architecture = "arm" ∨ architecture = "amd64" ∨ architecture = "mips64"
          then some { symbolsFor := fun _ => [] }
          else none,
        machine_architecture := architecture,
        machine_bitness := bitness,
        machine_endianness := endianness }
  | Packet.ProcessInfo pid executable =>
      let process : Process :=
        { pid := pid, executable := get_basename executable,
          memory_regions := [], base_address_for_binary := [],
          address_space_needs_reload := true }
      Except.ok { st with
        processes := st.processes ++ [process],
        process_index_by_pid :=
          assocSet st.process_index_by_pid pid st.processes.length }
  | Packet.BinaryInfo id symbol_table_count path debuglink =>
      let trimmed := debuglink.takeWhile (fun b => decide (b ≠ 0))
      let binary0 : Binary :=
        { path := path, basename := get_basename path,
          string_tables := { chunks := [] }, symbol_table_count := symbol_table_count,
          symbol_tables_chunks := { chunks := [] }, symbol_tables := [],
          symbols := none, debug_symbols := none }
      if trimmed ≠ [] then
        match assoc st.debug_symbols_map trimmed with
        | some ds =>
            Except.ok { st with
              binary_by_id := assocSet st.binary_by_id id
                { binary0 with debug_symbols := some ds },
              debug_symbols_map := assocRemove st.debug_symbols_map trimmed }
        | none =>
            Except.ok { st with binary_by_id := assocSet st.binary_by_id id binary0 }
      else
        Except.ok { st with binary_by_id := assocSet st.binary_by_id id binary0 }
  | Packet.MemoryRegionMap pid range_start range_stop is_read is_write
      is_executable is_shared file_offset inode major minor name =>
      match assoc st.process_index_by_pid pid with
      | none => Except.ok st
      | some index =>
        match st.processes.get? index with
        | none => Except.error Panic.indexOutOfBounds
        | some process =>
          let region : Region :=
            { start := range_start, stop := range_stop, is_read := is_read,
              is_write := is_write, is_executable := is_executable,
              is_shared := is_shared, file_offset := file_offset,
              inode := inode, major := major, minor := minor, name := name }
          match rangePush process.memory_regions region with
          | none => Except.error Panic.duplicateRegion
          | some regions' =>
              let process' := { process with memory_regions := regions', address_space_needs_reload := true }
              Except.ok { st with processes := st.processes.set index process' }
  | Packet.MemoryRegionUnmap pid range_start range_stop =>
      match assoc st.process_index_by_pid pid with
      | none => Except.ok st
      | some index =>
        match st.processes.get? index with
        | none => Except.error Panic.indexOutOfBounds
        | some process =>
          match rangeRemove process.memory_regions range_start range_stop with
          | none => Except.error Panic.unknownRegion
          | some regions' =>
              let process' := { process with memory_regions := regions', address_space_needs_reload := true }
              Except.ok { st with processes := st.processes.set index process' }
  | Packet.BinaryMap pid id base_address =>
      match assoc st.process_index_by_pid pid with
      | none => Except.ok st
      | some index =>
        match st.processes.get? index with
        | none => Except.error Panic.indexOutOfBounds
        | some process =>
          match assoc st.binary_by_id id with
          | none => Except.ok st
          | some _ =>
              let process' := { process with base_address_for_binary := assocSet process.base_address_for_binary id base_address, address_space_needs_reload := true }
              Except.ok { st with processes := st.processes.set index process' }
  | Packet.BinaryUnmap pid id =>
      match assoc st.process_index_by_pid pid with
      | none => Except.ok st
      | some index =>
        match st.processes.get? index with
        | none => Except.error Panic.indexOutOfBounds
        | some process =>
          match assoc st.binary_by_id id with
          | none => Except.ok st
          | some _ =>
              let process' := { process with base_address_for_binary := assocRemove process.base_address_for_binary id, address_space_needs_reload := true }
              Except.ok { st with processes := st.processes.set index process' }
  | Packet.StringTable binary_id offset data =>
      match assoc st.binary_by_id binary_id with
      | none => Except.error Panic.unwrapNone
      | some binary =>
          let binary' := { binary with
            string_tables := binary.string_tables.addChunk offset data }
          Except.ok { st with
            binary_by_id := assocSet st.binary_by_id binary_id binary' }
  | Packet.SymbolTable binary_id offset data string_table_offset is_dynamic =>
      match assoc st.binary_by_id binary_id with
      | none => Except.error Panic.unwrapNone
      | some binary =>
        match binary.string_tables.range_by_offset string_table_offset with
        | none => Except.error Panic.rangeByOffset
        | some strtab_range =>
          let symbol_tables_chunks := binary.symbol_tables_chunks.addChunk offset data
          let symbol_tables := binary.symbol_tables ++
            [{ range := (offset, offset + data.length),
               strtab_range := strtab_range, is_dynamic := is_dynamic }]
          let binary' :=
            if symbol_tables.length = binary.symbol_table_count then
              { binary with
                symbols := some (oracle.loadSymbols st.machine_architecture
                  symbol_tables symbol_tables_chunks binary.string_tables),
                symbol_tables := [],
                symbol_tables_chunks := { chunks := [] } }
            else
              { binary with symbol_tables := symbol_tables,
                            symbol_tables_chunks := symbol_tables_chunks }
          Except.ok { st with
            binary_by_id := assocSet st.binary_by_id binary_id binary' }
  | Packet.Sample pid tid user_backtrace kernel_backtrace =>
      stepSample args st pid tid user_backtrace kernel_backtrace
  | Packet.RawSample pid tid stack regs kernel_backtrace =>
      stepRawSample args oracle st pid tid stack regs kernel_backtrace
  | Packet.BinaryBlob id path data =>
      match oracle.parseOwned path id data with
      | none => Except.error Panic.unwrapNone
      | some bd =>
          Except.ok { st with binary_source_map := assocSet st.binary_source_map id bd }
  | Packet.FileBlob path data =>
      if path = "/proc/kallsyms"
      then Except.ok { st with kallsyms := oracle.parseKallsyms data }
      else Except.ok st
  | Packet.ThreadName tid name =>
      if name = "" then
        Except.ok { st with thread_names := assocRemove st.thread_names tid }
      else
        Except.ok { st with thread_names := assocSet st.thread_names tid name }
  | Packet.Other => Except.ok st

/-- Replay a packet list starting from a given state. -/
def collate_run_from (args : Args) (oracle : Oracles) (st : CollateState) :
    List Packet → Except Panic CollateState
  | [] => Except.ok st
  | p :: rest =>
    match collate_step args oracle st p with
    | Except.error e => Except.error e
    | Except.ok st' => collate_run_from args oracle st' rest

/-- The initial state of `collate`, holding the debug-symbols map built
from the configured debug-symbols directories. -/
def initState (debug_symbols_map : List (List Nat × List SymEntry)) :
    CollateState :=
  { stackMap := [], processes := [], process_index_by_pid := [],
    binary_by_id := [], machine_architecture := "",
    machine_bitness := Bitness.B64,
    machine_endianness := Endianness.LittleEndian, kallsyms := [],
    address_space := none, sample_counter := 0, thread_names := [],
    binary_source_map := [], debug_symbols_map := debug_symbols_map }

/-- `collate`: replay the packet stream from the initial state. -/
def collate_run (args : Args) (oracle : Oracles)
    (debug_symbols_map : List (List Nat × List SymEntry))
    (packets : List Packet) : Except Panic CollateState :=
  collate_run_from args oracle (initState debug_symbols_map) packets

/-- Whether a packet carries a sample (`Sample` or `RawSample`). -/
def isSampleCarrying : Packet → Bool
  | Packet.Sample _ _ _ _ => true
  | Packet.RawSample _ _ _ _ _ => true
  | _ => false

/-- The pid of a sample-carrying packet. -/
def samplePid : Packet → Option Nat
  | Packet.Sample pid _ _ _ => some pid
  | Packet.RawSample pid _ _ _ _ => some pid
  | _ => none

/-- Whether a packet is `ProcessInfo`. -/
def isProcessInfo : Packet → Bool
  | Packet.ProcessInfo _ _ => true
  | _ => false

/-- The string-table offset announced by a `StringTable` packet for the
given binary. -/
def stringTableOffsetFor (bid : BinaryId) : Packet → Option Nat
  | Packet.StringTable b offset _ => if b = bid then some offset else none
  | _ => none

/-- Whether the `only_sample` selector rejects the current sample counter. -/
def sampleSkipSelected (args : Args) (st : CollateState) : Bool :=
  match args.only_sample with
  | some only_sample => decide (only_sample ≠ st.sample_counter)
  | none => false

/-- Whether a selected sample-carrying packet is dropped by the pid filter
(`processes[0].pid != pid`). -/
def pidMismatch (st : CollateState) (p : Packet) : Bool :=
  match st.processes.head?, samplePid p with
  | some process, some pid => decide (process.pid ≠ pid)
  | _, _ => false

/-- A stat-visible file, the input of `BinaryData::load_from_fs`: the
identity triple returned by `stat` plus the mapped bytes. -/
structure FsFile where
  path : String
  inode : Nat
  dev_major : Nat
  dev_minor : Nat
  bytes : List Nat
deriving DecidableEq

/-- The failure modes of the binary loader surfaced as `io::Error` values;
`identityMismatch` is the inode/dev verification failure. -/
inductive LoadError where
  | identityMismatch (loaded expected : BinaryId)
  | parseError
deriving DecidableEq

/-- `BinaryData::load_from_fs` of `binary.rs`: stat the opened file, build
the identity triple, fail with the identity-mismatch error when an expected
id differs, and otherwise hand off to `BinaryData::load` (the ELF parsing
stage, whose `elf`-module internals are outside the embedded sources and
are therefore passed as the `loadFn` parameter). -/
def load_from_fs
    (loadFn : String → BinaryId → List Nat → Except LoadError BinaryDataM)
    (expected_id : Option BinaryId) (file : FsFile) :
    Except LoadError BinaryDataM :=
  let loaded_id : BinaryId :=
    { inode := file.inode, dev_major := file.dev_major, dev_minor := file.dev_minor }
  match expected_id with
  | some expected =>
      if loaded_id ≠ expected
      then Except.error (LoadError.identityMismatch loaded_id expected)
      else loadFn file.path loaded_id file.bytes
  | none => loadFn file.path loaded_id file.bytes

/-- Written from the words of the precedence claim: resolution indices for
the three sources are consulted in order Debug, Original, AddressSpace; the
first hit tags the resulting `UserSymbol`, and a complete miss yields
`UserBinary`. -/
def firstResolvedSpec (debugIdx origIdx aspIdx : Option Nat) (id : BinaryId)
    (addr : Nat) : Frame :=
  match debugIdx with
  | some i => Frame.UserSymbol id i Table.Debug
  | none =>
    match origIdx with
    | some i => Frame.UserSymbol id i Table.Original
    | none =>
      match aspIdx with
      | some i => Frame.UserSymbol id i Table.AddressSpace
      | none => Frame.UserBinary id addr

/-- The symbol name a `UserSymbol` frame denotes, as resolved by
`Decoder::get_user_symbol` against the named source table. -/
def resolvedName (address_space : Option AddressSpaceModel)
    (binary_by_id : List (BinaryId × Binary)) (binary_id : BinaryId)
    (index : Nat) : Table → Option String
  | Table.Debug =>
      ((assoc binary_by_id binary_id).bind (fun b => b.debug_symbols)).bind
        (fun s => (s.get? index).map (fun e => e.name))
  | Table.Original =>
      ((assoc binary_by_id binary_id).bind (fun b => b.symbols)).bind
        (fun s => (s.get? index).map (fun e => e.name))
  | Table.AddressSpace =>
      address_space.map (fun asp => symName (asp.symbolsFor binary_id) index)

/-- The symbol name a `UserSymbol` frame denotes relative to a known
`Binary` value (the per-binary restriction of `resolvedName`). -/
def tagName (address_space : Option AddressSpaceModel) (binary : Binary)
    (binary_id : BinaryId) (index : Nat) : Table → Option String
  | Table.Debug =>
      binary.debug_symbols.bind (fun s => (s.get? index).map (fun e => e.name))
  | Table.Original =>
      binary.symbols.bind (fun s => (s.get? index).map (fun e => e.name))
  | Table.AddressSpace =>
      address_space.map (fun asp => symName (asp.symbolsFor binary_id) index)

/-- View of `Except` as a sum, giving decidable equality. -/
def exceptToSum {ε α : Type} : Except ε α → ε ⊕ α
  | Except.error e => Sum.inl e
  | Except.ok a => Sum.inr a

instance {ε α : Type} [DecidableEq ε] [DecidableEq α] :
    DecidableEq (Except ε α) := fun a b =>
  decidable_of_iff (exceptToSum a = exceptToSum b)
    (by cases a <;> cases b <;> simp [exceptToSum])

/-- Fixture: a region covering `[0, 1000)` backed by inode 5 on device
1:2. -/
def regionW : Region :=
  { start := 0, stop := 1000, is_read := true, is_write := false,
    is_executable := true, is_shared := false, file_offset := 0,
    inode := 5, major := 1, minor := 2, name := "libw.so" }

/-- Fixture: the identity of `regionW`. -/
def idW : BinaryId := { inode := 5, dev_major := 1, dev_minor := 2 }

/-- Fixture: a binary with one debug symbol named `foo` and one original
symbol named `bar`, both covering `[40, 60)`. -/
def binaryW : Binary :=
  { path := "/lib/libw.so", basename := "libw.so",
    string_tables := { chunks := [] }, symbol_table_count := 1,
    symbol_tables_chunks := { chunks := [] }, symbol_tables := [],
    symbols := some [{ value := 40, size := 20, name := "bar" }],
    debug_symbols := some [{ value := 40, size := 20, name := "foo" }] }

/-- Fixture: a binary carrying no symbols at all. -/
def binaryNoSymsW : Binary :=
  { path := "/lib/libw.so", basename := "libw.so",
    string_tables := { chunks := [] }, symbol_table_count := 1,
    symbol_tables_chunks := { chunks := [] }, symbol_tables := [],
    symbols := none, debug_symbols := none }

/-- Fixture: a process mapping `regionW` with base address 100. -/
def processW : Process :=
  { pid := 7, executable := "app", memory_regions := [regionW],
    base_address_for_binary := [(idW, 100)],
    address_space_needs_reload := false }

/-- Fixture: an address space preloaded with one absolute symbol covering
`[100, 200)`. -/
def aspW : AddressSpaceModel :=
  { symbolsFor := fun _ => [{ value := 100, size := 100, name := "aspsym" }] }

/-- Fixture: a frame at absolute address 150 with no initial address. -/
def ufW : UserFrame := { address := 150, initial_address := none }

/-- Fixture: the binary registry holding `binaryW`. -/
def bbiW : List (BinaryId × Binary) := [(idW, binaryW)]

/-- Fixture: an omit regex matching exactly the name `foo`. -/
def rxW : String → Bool := fun s => decide (s = "foo")

/-- Fixture: an ELF-parse stage that accepts everything. -/
def loadFnW : String → BinaryId → List Nat → Except LoadError BinaryDataM :=
  fun name id _ => Except.ok { name := name, id := id }

/-- Fixture: a stat-visible file with identity (5, 1, 2). -/
def fileW : FsFile :=
  { path := "/lib/libw.so", inode := 5, dev_major := 1, dev_minor := 2,
    bytes := [127, 69, 76, 70] }

/-- Fixture: oracles whose unwinder and parsers return nothing. -/
def oracleW : Oracles :=
  { unwind := fun _ _ => [], reload := fun _ _ _ => [],
    loadSymbols := fun _ _ _ _ => [],
    parseOwned := fun name id _ => some { name := name, id := id },
    parseKallsyms := fun _ => [] }

/-- Fixture: default collation options. -/
def argsW : Args :=
  { force_stack_size := none, omit_regex := none, only_sample := none,
    without_kernel_callstacks := false }

/-- Fixture: options selecting only sample 5. -/
def argsOnly5W : Args :=
  { force_stack_size := none, omit_regex := none, only_sample := some 5,
    without_kernel_callstacks := false }

/-- Fixture: options selecting only sample 0. -/
def argsOnly0W : Args :=
  { force_stack_size := none, omit_regex := none, only_sample := some 0,
    without_kernel_callstacks := false }

/-- Fixture: options clearing kernel callstacks. -/
def argsNoKW : Args :=
  { force_stack_size := none, omit_regex := none, only_sample := none,
    without_kernel_callstacks := true }

-- ===================================================================
-- Theorems
-- ===================================================================

/-- The index-picking fold behind `getSymbolIndex` only returns indices
whose entry contains the query address. -/
theorem foldlPick_sound (syms : List SymEntry) (x : Nat) (l : List Nat) :
    ∀ (acc : Option Nat),
      (∀ j, acc = some j → entryContainsB syms j x = true) →
      ∀ i, l.foldl (fun acc i => if entryContainsB syms i x then some i else acc)
          acc = some i →
        entryContainsB syms i x = true := by
  induction l with
  | nil => intro acc hacc i h; exact hacc i h
  | cons a l ih =>
    intro acc hacc i h
    simp only [List.foldl_cons] at h
    refine ih _ ?_ i h
    intro j hj
    by_cases hc : entryContainsB syms a x = true
    · rw [if_pos hc] at hj
      cases hj
      exact hc
    · rw [if_neg hc] at hj
      exact hacc j hj

/-- A successful `Symbols` lookup returns an index whose entry range
contains the query. -/
theorem getSymbolIndex_sound {syms : List SymEntry} {x i : Nat}
    (h : getSymbolIndex syms x = some i) : entryContainsB syms i x = true := by
  unfold getSymbolIndex at h
  exact foldlPick_sound syms x (List.range syms.length) none
    (by intro j hj; cases hj) i h

/-- A contained entry exists in the list. -/
theorem entryContainsB_get {syms : List SymEntry} {i x : Nat}
    (h : entryContainsB syms i x = true) :
    ∃ e, syms.get? i = some e ∧ e.value ≤ x ∧ x < e.value + e.size := by
  unfold entryContainsB at h
  cases hg : syms.get? i with
  | none => rw [hg] at h; cases h
  | some e =>
    rw [hg] at h
    simp only [Bool.and_eq_true, decide_eq_true_eq] at h
    exact ⟨e, rfl, h.1, h.2⟩

/-- With no omit regex, the omit check keeps the frame. -/
theorem omitCheck_none (n : String) (f : Frame) :
    omitCheck none n f = some f := rfl

/-- A kept frame is the input frame. -/
theorem omitCheck_some_eq {o : Option (String → Bool)} {n : String}
    {f f' : Frame} (h : omitCheck o n f = some f') : f' = f := by
  cases o with
  | none => simp only [omitCheck] at h; exact (Option.some.inj h).symm
  | some rx =>
    simp only [omitCheck] at h
    cases hrx : rx n with
    | true => rw [if_pos hrx] at h; cases h
    | false => rw [if_neg (by simp [hrx])] at h; exact (Option.some.inj h).symm

/-- A frame kept under a configured regex has a non-matching name. -/
theorem omitCheck_kept_notMatch {rx : String → Bool} {n : String}
    {f f' : Frame} (h : omitCheck (some rx) n f = some f') : rx n = false := by
  simp only [omitCheck] at h
  cases hrx : rx n with
  | true => rw [if_pos hrx] at h; cases h
  | false => rfl

/-- A filtered frame means the regex matched its name. -/
theorem omitCheck_filtered {o : Option (String → Bool)} {n : String} {f : Frame}
    (h : omitCheck o n f = none) : ∃ rx, o = some rx ∧ rx n = true := by
  cases o with
  | none => simp only [omitCheck] at h; cases h
  | some rx =>
    simp only [omitCheck] at h
    cases hrx : rx n with
    | true => exact ⟨rx, rfl, hrx⟩
    | false => rw [if_neg (by simp [hrx])] at h; cases h

/-- Inversion of the `AddressSpace` fallback source: a kept frame is either
a tagged `UserSymbol` found by the absolute lookup (with a non-matching
name under any configured regex) or the `UserBinary` degradation. -/
theorem aspSource_inv {o : Option (String → Bool)} {a : Option AddressSpaceModel}
    {id : BinaryId} {addr : Nat} {f : Frame}
    (h : decodeAddressSpaceSource o a id addr = some f) :
    (∃ asp i, a = some asp ∧ getSymbolIndex (asp.symbolsFor id) addr = some i ∧
        f = Frame.UserSymbol id i Table.AddressSpace ∧
        (∀ rx, o = some rx → rx (symName (asp.symbolsFor id) i) = false)) ∨
      f = Frame.UserBinary id addr := by
  cases a with
  | none =>
    simp only [decodeAddressSpaceSource] at h
    right; exact (Option.some.inj h).symm
  | some asp =>
    simp only [decodeAddressSpaceSource] at h
    cases hgi : getSymbolIndex (asp.symbolsFor id) addr with
    | none => rw [hgi] at h; right; exact (Option.some.inj h).symm
    | some i =>
      rw [hgi] at h
      left
      refine ⟨asp, i, rfl, hgi, omitCheck_some_eq h, ?_⟩
      intro rx hrx
      subst hrx
      exact omitCheck_kept_notMatch h

/-- Inversion of the `Original` source: a kept frame is an `Original`
`UserSymbol` hit, or control fell through to the `AddressSpace` source. -/
theorem origSource_inv {o : Option (String → Bool)}
    {a : Option AddressSpaceModel} {p : Process} {id : BinaryId} {b : Binary}
    {addr : Nat} {f : Frame}
    (h : decodeOriginalSource o a p id b addr = Except.ok (some f)) :
    (∃ s base i, b.symbols = some s ∧
        assoc p.base_address_for_binary id = some base ∧
        getSymbolIndex s (sub64 addr base) = some i ∧
        f = Frame.UserSymbol id i Table.Original ∧
        (∀ rx, o = some rx → rx (symName s i) = false)) ∨
      decodeAddressSpaceSource o a id addr = some f := by
  unfold decodeOriginalSource at h
  cases hs : b.symbols with
  | none => rw [hs] at h; dsimp only at h; right; exact Except.ok.inj h
  | some s =>
    rw [hs] at h
    dsimp only at h
    cases hb : assoc p.base_address_for_binary id with
    | none => rw [hb] at h; dsimp only at h; exact Except.noConfusion h
    | some base =>
      rw [hb] at h
      dsimp only at h
      cases hgi : getSymbolIndex s (sub64 addr base) with
      | none => rw [hgi] at h; dsimp only at h; right; exact Except.ok.inj h
      | some i =>
        rw [hgi] at h
        dsimp only at h
        have h' := Except.ok.inj h
        left
        refine ⟨s, base, i, rfl, rfl, hgi, omitCheck_some_eq h', ?_⟩
        intro rx hrx
        subst hrx
        exact omitCheck_kept_notMatch h'

/-- Inversion of the `Debug` source: a kept frame is a `Debug` `UserSymbol`
hit, or control fell through to the `Original` source. -/
theorem debugSource_inv {o : Option (String → Bool)}
    {a : Option AddressSpaceModel} {p : Process} {id : BinaryId} {b : Binary}
    {addr : Nat} {f : Frame}
    (h : decodeDebugSource o a p id b addr = Except.ok (some f)) :
    (∃ ds base i, b.debug_symbols = some ds ∧
        assoc p.base_address_for_binary id = some base ∧
        getSymbolIndex ds (sub64 addr base) = some i ∧
        f = Frame.UserSymbol id i Table.Debug ∧
        (∀ rx, o = some rx → rx (symName ds i) = false)) ∨
      decodeOriginalSource o a p id b addr = Except.ok (some f) := by
  unfold decodeDebugSource at h
  cases hds : b.debug_symbols with
  | none => rw [hds] at h; dsimp only at h; right; exact h
  | some ds =>
    rw [hds] at h
    dsimp only at h
    cases hb : assoc p.base_address_for_binary id with
    | none => rw [hb] at h; dsimp only at h; exact Except.noConfusion h
    | some base =>
      rw [hb] at h
      dsimp only at h
      cases hgi : getSymbolIndex ds (sub64 addr base) with
      | none => rw [hgi] at h; dsimp only at h; right; exact h
      | some i =>
        rw [hgi] at h
        dsimp only at h
        have h' := Except.ok.inj h
        left
        refine ⟨ds, base, i, rfl, rfl, hgi, omitCheck_some_eq h', ?_⟩
        intro rx hrx
        subst hrx
        exact omitCheck_kept_notMatch h'

/-- Inversion of `decode_user_frame`: a kept frame either went through the
source chain under a covering region with a registered binary, or is the
`User` degradation. -/
theorem decode_inv {o : Option (String → Bool)} {a : Option AddressSpaceModel}
    {p : Process} {bbi : List (BinaryId × Binary)} {uf : UserFrame} {f : Frame}
    (h : decode_user_frame o a p bbi uf = Except.ok (some f)) :
    (∃ region binary,
        regionGet p.memory_regions (effectiveAddress uf) = some region ∧
        assoc bbi (regionBinaryId region) = some binary ∧
        decodeDebugSource o a p (regionBinaryId region) binary
          (effectiveAddress uf) = Except.ok (some f)) ∨
      f = Frame.User (effectiveAddress uf) := by
  simp only [decode_user_frame] at h
  cases hr : regionGet p.memory_regions (effectiveAddress uf) with
  | none =>
    rw [hr] at h; dsimp only at h
    right; exact (Option.some.inj (Except.ok.inj h)).symm
  | some region =>
    rw [hr] at h
    dsimp only at h
    cases hb : assoc bbi (regionBinaryId region) with
    | none =>
      rw [hb] at h; dsimp only at h
      right; exact (Option.some.inj (Except.ok.inj h)).symm
    | some binary =>
      rw [hb] at h
      dsimp only at h
      left
      exact ⟨region, binary, rfl, hb, h⟩

/-- A frame kept by `decode_user_frame` is never a kernel frame. -/
theorem decode_ok_shape {o : Option (String → Bool)}
    {a : Option AddressSpaceModel} {p : Process}
    {bbi : List (BinaryId × Binary)} {uf : UserFrame} {f : Frame}
    (h : decode_user_frame o a p bbi uf = Except.ok (some f)) :
    isKernelFrame f = false := by
  rcases decode_inv h with ⟨region, binary, _, _, hd⟩ | hf
  · rcases debugSource_inv hd with ⟨_, _, _, _, _, _, hf, _⟩ | ho
    · subst hf; rfl
    · rcases origSource_inv ho with ⟨_, _, _, _, _, _, hf, _⟩ | ha
      · subst hf; rfl
      · rcases aspSource_inv ha with ⟨_, _, _, _, hf, _⟩ | hf
        · subst hf; rfl
        · subst hf; rfl
  · subst hf; rfl

/-- With a known binary, `resolvedName` agrees with the binary-local
`tagName`. -/
theorem resolvedName_eq {a : Option AddressSpaceModel}
    {bbi : List (BinaryId × Binary)} {id : BinaryId} {binary : Binary}
    (hb : assoc bbi id = some binary) (i : Nat) (tag : Table) :
    resolvedName a bbi id i tag = tagName a binary id i tag := by
  cases tag <;> simp [resolvedName, tagName, hb]

/-- Inversion of `decode_user_frame` at a `UserSymbol` result: the frame's
binary is registered, the index was found by the named source at the
source's own lookup key, and under a configured regex its resolved name
does not match. -/
theorem decode_userSymbol_inv {o : Option (String → Bool)}
    {a : Option AddressSpaceModel} {p : Process}
    {bbi : List (BinaryId × Binary)} {uf : UserFrame} {id : BinaryId}
    {i : Nat} {tag : Table}
    (h : decode_user_frame o a p bbi uf =
      Except.ok (some (Frame.UserSymbol id i tag))) :
    ∃ binary, assoc bbi id = some binary ∧
      (match tag with
       | Table.Debug => ∃ ds base, binary.debug_symbols = some ds ∧
           assoc p.base_address_for_binary id = some base ∧
           getSymbolIndex ds (sub64 (effectiveAddress uf) base) = some i
       | Table.Original => ∃ s base, binary.symbols = some s ∧
           assoc p.base_address_for_binary id = some base ∧
           getSymbolIndex s (sub64 (effectiveAddress uf) base) = some i
       | Table.AddressSpace => ∃ asp, a = some asp ∧
           getSymbolIndex (asp.symbolsFor id) (effectiveAddress uf) = some i) ∧
      (∀ rx, o = some rx → ∀ n, resolvedName a bbi id i tag = some n →
        rx n = false) := by
  rcases decode_inv h with ⟨region, binary, _, hb, hd⟩ | hf
  · rcases debugSource_inv hd with
      ⟨ds, base, i', hds, hbase, hgi, hf, homit⟩ | ho
    · cases hf
      refine ⟨binary, hb, ⟨ds, base, hds, hbase, hgi⟩, ?_⟩
      intro rx hrx n hn
      rw [resolvedName_eq hb] at hn
      rcases entryContainsB_get (getSymbolIndex_sound hgi) with ⟨e, hget, _, _⟩
      simp only [tagName, hds, Option.some_bind, hget, Option.map_some'] at hn
      have hn' : e.name = n := Option.some.inj hn
      have := homit rx hrx
      rw [symName, hget] at this
      simp only [Option.map_some', Option.getD_some] at this
      rw [← hn']
      exact this
    · rcases origSource_inv ho with
        ⟨s, base, i', hs, hbase, hgi, hf, homit⟩ | ha
      · cases hf
        refine ⟨binary, hb, ⟨s, base, hs, hbase, hgi⟩, ?_⟩
        intro rx hrx n hn
        rw [resolvedName_eq hb] at hn
        rcases entryContainsB_get (getSymbolIndex_sound hgi) with ⟨e, hget, _, _⟩
        simp only [tagName, hs, Option.some_bind, hget, Option.map_some'] at hn
        have hn' : e.name = n := Option.some.inj hn
        have := homit rx hrx
        rw [symName, hget] at this
        simp only [Option.map_some', Option.getD_some] at this
        rw [← hn']
        exact this
      · rcases aspSource_inv ha with ⟨asp, i', hasp, hgi, hf, homit⟩ | hf
        · cases hf
          refine ⟨binary, hb, ⟨asp, hasp, hgi⟩, ?_⟩
          intro rx hrx n hn
          rw [resolvedName_eq hb] at hn
          simp only [tagName, hasp, Option.map_some'] at hn
          rw [← Option.some.inj hn]
          exact homit rx hrx
        · cases hf
  · cases hf

/-- With no address space, the fallback source degrades to `UserBinary`. -/
theorem aspSource_none_eq {o : Option (String → Bool)} {id : BinaryId}
    {addr : Nat} :
    decodeAddressSpaceSource o none id addr = some (Frame.UserBinary id addr) :=
  rfl

/-- A missed absolute lookup degrades to `UserBinary`. -/
theorem aspSource_miss {o : Option (String → Bool)} {asp : AddressSpaceModel}
    {id : BinaryId} {addr : Nat}
    (hgi : getSymbolIndex (asp.symbolsFor id) addr = none) :
    decodeAddressSpaceSource o (some asp) id addr =
      some (Frame.UserBinary id addr) := by
  simp only [decodeAddressSpaceSource, hgi]

/-- A hit in the absolute lookup goes through the omit check. -/
theorem aspSource_hit {o : Option (String → Bool)} {asp : AddressSpaceModel}
    {id : BinaryId} {addr i : Nat}
    (hgi : getSymbolIndex (asp.symbolsFor id) addr = some i) :
    decodeAddressSpaceSource o (some asp) id addr =
      omitCheck o (symName (asp.symbolsFor id) i)
        (Frame.UserSymbol id i Table.AddressSpace) := by
  simp only [decodeAddressSpaceSource, hgi]

/-- With no `Original` symbols, control falls to the fallback source. -/
theorem origSource_noSyms {o : Option (String → Bool)}
    {a : Option AddressSpaceModel} {p : Process} {id : BinaryId} {b : Binary}
    {addr : Nat} (hs : b.symbols = none) :
    decodeOriginalSource o a p id b addr =
      Except.ok (decodeAddressSpaceSource o a id addr) := by
  unfold decodeOriginalSource; rw [hs]

/-- `Original` symbols with no recorded base address panic. -/
theorem origSource_nobase {o : Option (String → Bool)}
    {a : Option AddressSpaceModel} {p : Process} {id : BinaryId} {b : Binary}
    {addr : Nat} {s : List SymEntry} (hs : b.symbols = some s)
    (hbase : assoc p.base_address_for_binary id = none) :
    decodeOriginalSource o a p id b addr = Except.error Panic.noBaseAddress := by
  unfold decodeOriginalSource; rw [hs]; dsimp only; rw [hbase]

/-- A missed `Original` lookup falls to the fallback source. -/
theorem origSource_miss {o : Option (String → Bool)}
    {a : Option AddressSpaceModel} {p : Process} {id : BinaryId} {b : Binary}
    {addr : Nat} {s : List SymEntry} {base : Nat} (hs : b.symbols = some s)
    (hbase : assoc p.base_address_for_binary id = some base)
    (hgi : getSymbolIndex s (sub64 addr base) = none) :
    decodeOriginalSource o a p id b addr =
      Except.ok (decodeAddressSpaceSource o a id addr) := by
  unfold decodeOriginalSource
  rw [hs]; dsimp only; rw [hbase]; dsimp only; rw [hgi]

/-- A hit in the `Original` lookup goes through the omit check. -/
theorem origSource_hit {o : Option (String → Bool)}
    {a : Option AddressSpaceModel} {p : Process} {id : BinaryId} {b : Binary}
    {addr : Nat} {s : List SymEntry} {base i : Nat} (hs : b.symbols = some s)
    (hbase : assoc p.base_address_for_binary id = some base)
    (hgi : getSymbolIndex s (sub64 addr base) = some i) :
    decodeOriginalSource o a p id b addr =
      Except.ok (omitCheck o (symName s i)
        (Frame.UserSymbol id i Table.Original)) := by
  unfold decodeOriginalSource
  rw [hs]; dsimp only; rw [hbase]; dsimp only; rw [hgi]

/-- With no debug symbols, control falls to the `Original` source. -/
theorem debugSource_noDs {o : Option (String → Bool)}
    {a : Option AddressSpaceModel} {p : Process} {id : BinaryId} {b : Binary}
    {addr : Nat} (hds : b.debug_symbols = none) :
    decodeDebugSource o a p id b addr =
      decodeOriginalSource o a p id b addr := by
  unfold decodeDebugSource; rw [hds]

/-- Debug symbols with no recorded base address panic. -/
theorem debugSource_nobase {o : Option (String → Bool)}
    {a : Option AddressSpaceModel} {p : Process} {id : BinaryId} {b : Binary}
    {addr : Nat} {ds : List SymEntry} (hds : b.debug_symbols = some ds)
    (hbase : assoc p.base_address_for_binary id = none) :
    decodeDebugSource o a p id b addr = Except.error Panic.noBaseAddress := by
  unfold decodeDebugSource; rw [hds]; dsimp only; rw [hbase]

/-- A missed `Debug` lookup falls to the `Original` source. -/
theorem debugSource_miss {o : Option (String → Bool)}
    {a : Option AddressSpaceModel} {p : Process} {id : BinaryId} {b : Binary}
    {addr : Nat} {ds : List SymEntry} {base : Nat}
    (hds : b.debug_symbols = some ds)
    (hbase : assoc p.base_address_for_binary id = some base)
    (hgi : getSymbolIndex ds (sub64 addr base) = none) :
    decodeDebugSource o a p id b addr =
      decodeOriginalSource o a p id b addr := by
  unfold decodeDebugSource
  rw [hds]; dsimp only; rw [hbase]; dsimp only; rw [hgi]

/-- A hit in the `Debug` lookup goes through the omit check. -/
theorem debugSource_hit {o : Option (String → Bool)}
    {a : Option AddressSpaceModel} {p : Process} {id : BinaryId} {b : Binary}
    {addr : Nat} {ds : List SymEntry} {base i : Nat}
    (hds : b.debug_symbols = some ds)
    (hbase : assoc p.base_address_for_binary id = some base)
    (hgi : getSymbolIndex ds (sub64 addr base) = some i) :
    decodeDebugSource o a p id b addr =
      Except.ok (omitCheck o (symName ds i)
        (Frame.UserSymbol id i Table.Debug)) := by
  unfold decodeDebugSource
  rw [hds]; dsimp only; rw [hbase]; dsimp only; rw [hgi]

/-- With no covering region, the classifier returns `User`. -/
theorem decode_noRegion {o : Option (String → Bool)}
    {a : Option AddressSpaceModel} {p : Process}
    {bbi : List (BinaryId × Binary)} {uf : UserFrame}
    (hr : regionGet p.memory_regions (effectiveAddress uf) = none) :
    decode_user_frame o a p bbi uf =
      Except.ok (some (Frame.User (effectiveAddress uf))) := by
  simp only [decode_user_frame]; rw [hr]

/-- With a covering region but no registered binary, the classifier
returns `User`. -/
theorem decode_noBinary {o : Option (String → Bool)}
    {a : Option AddressSpaceModel} {p : Process}
    {bbi : List (BinaryId × Binary)} {uf : UserFrame} {region : Region}
    (hr : regionGet p.memory_regions (effectiveAddress uf) = some region)
    (hb : assoc bbi (regionBinaryId region) = none) :
    decode_user_frame o a p bbi uf =
      Except.ok (some (Frame.User (effectiveAddress uf))) := by
  simp only [decode_user_frame]; rw [hr]; dsimp only; rw [hb]

/-- With a covering region and a registered binary, the classifier is the
source chain. -/
theorem decode_eq_debugSource {o : Option (String → Bool)}
    {a : Option AddressSpaceModel} {p : Process}
    {bbi : List (BinaryId × Binary)} {uf : UserFrame} {region : Region}
    {binary : Binary}
    (hr : regionGet p.memory_regions (effectiveAddress uf) = some region)
    (hb : assoc bbi (regionBinaryId region) = some binary) :
    decode_user_frame o a p bbi uf =
      decodeDebugSource o a p (regionBinaryId region) binary
        (effectiveAddress uf) := by
  simp only [decode_user_frame]; rw [hr]; dsimp only; rw [hb]

/-- A filtered fallback source means the absolute lookup hit a name the
regex matches; with the regex removed, the same `UserSymbol` comes back. -/
theorem aspSource_vs_none {o : Option (String → Bool)}
    {a : Option AddressSpaceModel} {id : BinaryId} {addr : Nat}
    (h : decodeAddressSpaceSource o a id addr = none) :
    ∃ i n, decodeAddressSpaceSource none a id addr =
        some (Frame.UserSymbol id i Table.AddressSpace) ∧
      (a.map fun asp => symName (asp.symbolsFor id) i) = some n ∧
      ∃ rx, o = some rx ∧ rx n = true := by
  cases a with
  | none => rw [aspSource_none_eq] at h; cases h
  | some asp =>
    cases hgi : getSymbolIndex (asp.symbolsFor id) addr with
    | none => rw [aspSource_miss hgi] at h; cases h
    | some i =>
      rw [aspSource_hit hgi] at h
      rcases omitCheck_filtered h with ⟨rx, hrx, hmatch⟩
      refine ⟨i, symName (asp.symbolsFor id) i, ?_, rfl, rx, hrx, hmatch⟩
      rw [aspSource_hit hgi]
      rfl

/-- A filtered `Original` chain, re-run without the regex, produces the
same first-hit `UserSymbol`, whose source-resolved name the regex
matches. -/
theorem origSource_vs_none {o : Option (String → Bool)}
    {a : Option AddressSpaceModel} {p : Process} {id : BinaryId} {b : Binary}
    {addr : Nat}
    (h : decodeOriginalSource o a p id b addr = Except.ok none) :
    ∃ i tag n, decodeOriginalSource none a p id b addr =
        Except.ok (some (Frame.UserSymbol id i tag)) ∧
      tagName a b id i tag = some n ∧ ∃ rx, o = some rx ∧ rx n = true := by
  cases hs : b.symbols with
  | none =>
    have h' := Except.ok.inj ((origSource_noSyms hs).symm.trans h)
    rcases aspSource_vs_none h' with ⟨i, n, hnone, hname, rx, hrx, hmatch⟩
    exact ⟨i, Table.AddressSpace, n,
      (origSource_noSyms hs).trans (congrArg Except.ok hnone), hname,
      rx, hrx, hmatch⟩
  | some s =>
    cases hbase : assoc p.base_address_for_binary id with
    | none => exact Except.noConfusion ((origSource_nobase hs hbase).symm.trans h)
    | some base =>
      cases hgi : getSymbolIndex s (sub64 addr base) with
      | none =>
        have h' := Except.ok.inj ((origSource_miss hs hbase hgi).symm.trans h)
        rcases aspSource_vs_none h' with ⟨i, n, hnone, hname, rx, hrx, hmatch⟩
        exact ⟨i, Table.AddressSpace, n,
          (origSource_miss hs hbase hgi).trans (congrArg Except.ok hnone), hname,
          rx, hrx, hmatch⟩
      | some i =>
        have h' := Except.ok.inj ((origSource_hit hs hbase hgi).symm.trans h)
        rcases omitCheck_filtered h' with ⟨rx, hrx, hmatch⟩
        refine ⟨i, Table.Original, symName s i, ?_, ?_, rx, hrx, hmatch⟩
        · rw [origSource_hit hs hbase hgi]
          rfl
        · rcases entryContainsB_get (getSymbolIndex_sound hgi) with ⟨e, hget, _, _⟩
          simp only [tagName, hs, Option.some_bind, hget, Option.map_some',
            symName, Option.getD_some]

/-- A filtered `Debug` chain, re-run without the regex, produces the same
first-hit `UserSymbol`, whose source-resolved name the regex matches. -/
theorem debugSource_vs_none {o : Option (String → Bool)}
    {a : Option AddressSpaceModel} {p : Process} {id : BinaryId} {b : Binary}
    {addr : Nat}
    (h : decodeDebugSource o a p id b addr = Except.ok none) :
    ∃ i tag n, decodeDebugSource none a p id b addr =
        Except.ok (some (Frame.UserSymbol id i tag)) ∧
      tagName a b id i tag = some n ∧ ∃ rx, o = some rx ∧ rx n = true := by
  cases hds : b.debug_symbols with
  | none =>
    have h' := (debugSource_noDs hds).symm.trans h
    rcases origSource_vs_none h' with ⟨i, tag, n, hnone, hname, rx, hrx, hmatch⟩
    exact ⟨i, tag, n, (debugSource_noDs hds).trans hnone, hname, rx, hrx, hmatch⟩
  | some ds =>
    cases hbase : assoc p.base_address_for_binary id with
    | none => exact Except.noConfusion ((debugSource_nobase hds hbase).symm.trans h)
    | some base =>
      cases hgi : getSymbolIndex ds (sub64 addr base) with
      | none =>
        have h' := (debugSource_miss hds hbase hgi).symm.trans h
        rcases origSource_vs_none h' with ⟨i, tag, n, hnone, hname, rx, hrx, hmatch⟩
        exact ⟨i, tag, n, (debugSource_miss hds hbase hgi).trans hnone, hname,
          rx, hrx, hmatch⟩
      | some i =>
        have h' := Except.ok.inj ((debugSource_hit hds hbase hgi).symm.trans h)
        rcases omitCheck_filtered h' with ⟨rx, hrx, hmatch⟩
        refine ⟨i, Table.Debug, symName ds i, ?_, ?_, rx, hrx, hmatch⟩
        · rw [debugSource_hit hds hbase hgi]
          rfl
        · rcases entryContainsB_get (getSymbolIndex_sound hgi) with ⟨e, hget, _, _⟩
          simp only [tagName, hds, Option.some_bind, hget, Option.map_some',
            symName, Option.getD_some]

/-- A user frame filtered by the omit regex resolves, without the regex, to
a `UserSymbol` whose decoder-resolved name the regex matches. -/
theorem decode_filtered_inv {o : Option (String → Bool)}
    {a : Option AddressSpaceModel} {p : Process}
    {bbi : List (BinaryId × Binary)} {uf : UserFrame}
    (h : decode_user_frame o a p bbi uf = Except.ok none) :
    ∃ id i tag n, decode_user_frame none a p bbi uf =
        Except.ok (some (Frame.UserSymbol id i tag)) ∧
      resolvedName a bbi id i tag = some n ∧
      ∃ rx, o = some rx ∧ rx n = true := by
  cases hr : regionGet p.memory_regions (effectiveAddress uf) with
  | none =>
    rw [decode_noRegion hr] at h
    exact Option.noConfusion (Except.ok.inj h)
  | some region =>
    cases hb : assoc bbi (regionBinaryId region) with
    | none =>
      rw [decode_noBinary hr hb] at h
      exact Option.noConfusion (Except.ok.inj h)
    | some binary =>
      rw [decode_eq_debugSource hr hb] at h
      rcases debugSource_vs_none h with ⟨i, tag, n, hnone, hname, rx, hrx, hmatch⟩
      refine ⟨regionBinaryId region, i, tag, n, ?_, ?_, rx, hrx, hmatch⟩
      · rw [decode_eq_debugSource hr hb]
        exact hnone
      · rw [resolvedName_eq hb]
        exact hname

/-- Without an omit regex, the fallback source computes the
`AddressSpace` tail of the precedence function. -/
theorem aspSource_noOmit (a : Option AddressSpaceModel) (id : BinaryId)
    (addr : Nat) :
    decodeAddressSpaceSource none a id addr =
      some (firstResolvedSpec none none
        (a.bind fun asp => getSymbolIndex (asp.symbolsFor id) addr) id addr) := by
  cases a with
  | none => rfl
  | some asp =>
    cases hgi : getSymbolIndex (asp.symbolsFor id) addr with
    | none =>
      rw [aspSource_miss hgi]
      simp only [Option.some_bind, hgi, firstResolvedSpec]
    | some i =>
      rw [aspSource_hit hgi]
      simp only [Option.some_bind, hgi, firstResolvedSpec, omitCheck]

/-- Without an omit regex, the `Original` chain computes the tail of the
precedence function with no `Debug` index. -/
theorem origSource_noOmit {a : Option AddressSpaceModel} {p : Process}
    {id : BinaryId} {b : Binary} {addr base : Nat}
    (hbase : assoc p.base_address_for_binary id = some base) :
    decodeOriginalSource none a p id b addr =
      Except.ok (some (firstResolvedSpec none
        (b.symbols.bind fun s => getSymbolIndex s (sub64 addr base))
        (a.bind fun asp => getSymbolIndex (asp.symbolsFor id) addr)
        id addr)) := by
  cases hs : b.symbols with
  | none =>
    rw [origSource_noSyms hs, aspSource_noOmit]
    simp only [Option.none_bind, firstResolvedSpec]
  | some s =>
    cases hgi : getSymbolIndex s (sub64 addr base) with
    | none =>
      rw [origSource_miss hs hbase hgi, aspSource_noOmit]
      simp only [Option.some_bind, hgi, firstResolvedSpec]
    | some i =>
      rw [origSource_hit hs hbase hgi]
      simp only [Option.some_bind, hgi, firstResolvedSpec, omitCheck]

/-- Without an omit regex, the full source chain computes the precedence
function of the claim. -/
theorem debugSource_noOmit {a : Option AddressSpaceModel} {p : Process}
    {id : BinaryId} {b : Binary} {addr base : Nat}
    (hbase : assoc p.base_address_for_binary id = some base) :
    decodeDebugSource none a p id b addr =
      Except.ok (some (firstResolvedSpec
        (b.debug_symbols.bind fun ds => getSymbolIndex ds (sub64 addr base))
        (b.symbols.bind fun s => getSymbolIndex s (sub64 addr base))
        (a.bind fun asp => getSymbolIndex (asp.symbolsFor id) addr)
        id addr)) := by
  cases hds : b.debug_symbols with
  | none =>
    rw [debugSource_noDs hds, origSource_noOmit hbase]
    simp only [Option.none_bind, firstResolvedSpec]
  | some ds =>
    cases hgi : getSymbolIndex ds (sub64 addr base) with
    | none =>
      rw [debugSource_miss hds hbase hgi, origSource_noOmit hbase]
      simp only [Option.some_bind, hgi, firstResolvedSpec]
    | some i =>
      rw [debugSource_hit hds hbase hgi]
      simp only [Option.some_bind, hgi, firstResolvedSpec, omitCheck]

/-- Lookup in a consed association list. -/
theorem assoc_cons {α β : Type} [DecidableEq α] (k' : α) (v : β)
    (rest : List (α × β)) (k : α) :
    assoc ((k', v) :: rest) k = if k' = k then some v else assoc rest k := by
  by_cases h : k' = k
  · subst h
    simp [assoc, List.find?]
  · simp [assoc, List.find?, h]

/-- `bump` on a consed histogram. -/
theorem bump_cons (k' : List Frame) (n : Nat) (rest : Histogram)
    (k : List Frame) :
    bump ((k', n) :: rest) k =
      if k' = k then (k', n + 1) :: rest else (k', n) :: bump rest k := rfl

/-- Bumping a key increments its count by one. -/
theorem histCount_bump_self (h : Histogram) (k : List Frame) :
    histCount (bump h k) k = histCount h k + 1 := by
  induction h with
  | nil => simp [bump, histCount, assoc, List.find?]
  | cons e rest ih =>
    obtain ⟨k', n⟩ := e
    by_cases hk : k' = k
    · subst hk
      simp [bump_cons, histCount, assoc_cons]
    · rw [bump_cons, if_neg hk]
      simp only [histCount, assoc_cons, if_neg hk]
      exact ih

/-- Bumping a key leaves every other count unchanged. -/
theorem histCount_bump_other (h : Histogram) (k k' : List Frame)
    (hne : k' ≠ k) : histCount (bump h k) k' = histCount h k' := by
  induction h with
  | nil =>
    simp only [bump, histCount, assoc_cons, if_neg (Ne.symm hne)]
  | cons e rest ih =>
    obtain ⟨k'', n⟩ := e
    by_cases hk : k'' = k
    · subst hk
      rw [bump_cons, if_pos rfl]
      simp only [histCount, assoc_cons, if_neg (Ne.symm hne)]
    · rw [bump_cons, if_neg hk]
      by_cases hk' : k'' = k'
      · subst hk'
        simp [histCount, assoc_cons]
      · simp only [histCount, assoc_cons, if_neg hk']
        exact ih

/-- Bumping adds exactly one to the histogram total. -/
theorem histTotal_bump (h : Histogram) (k : List Frame) :
    histTotal (bump h k) = histTotal h + 1 := by
  induction h with
  | nil => simp [bump, histTotal]
  | cons e rest ih =>
    obtain ⟨k', n⟩ := e
    by_cases hk : k' = k
    · subst hk
      rw [bump_cons, if_pos rfl]
      simp only [histTotal, List.map_cons, List.sum_cons]
      omega
    · rw [bump_cons, if_neg hk]
      simp only [histTotal, List.map_cons, List.sum_cons] at ih ⊢
      omega

/-- Every key of a bumped histogram is an old key or the bumped key. -/
theorem bump_keys (h : Histogram) (k : List Frame) :
    ∀ k' ∈ (bump h k).map (fun e => e.1),
      k' ∈ h.map (fun e => e.1) ∨ k' = k := by
  induction h with
  | nil => intro k' hk'; simp [bump] at hk'; right; exact hk'
  | cons e rest ih =>
    obtain ⟨k'', n⟩ := e
    intro k' hk'
    by_cases hk : k'' = k
    · subst hk
      rw [bump_cons, if_pos rfl] at hk'
      simp only [List.map_cons, List.mem_cons] at hk'
      rcases hk' with hk' | hk'
      · left; simp [hk']
      · left
        simp only [List.map_cons, List.mem_cons]
        right
        exact hk'
    · rw [bump_cons, if_neg hk] at hk'
      simp only [List.map_cons, List.mem_cons] at hk'
      rcases hk' with hk' | hk'
      · left; simp [hk']
      · rcases ih k' hk' with hin | hek
        · left
          simp only [List.map_cons, List.mem_cons]
          right
          exact hin
        · right; exact hek

/-- Every frame of a fully decoded backtrace comes from decoding one of
its user frames. -/
theorem decodeAll_mem {o : Option (String → Bool)}
    {a : Option AddressSpaceModel} {p : Process}
    {bbi : List (BinaryId × Binary)} :
    ∀ {ubt : List UserFrame} {fs : List Frame},
      decodeAll o a p bbi ubt = Except.ok (some fs) →
      ∀ f ∈ fs, ∃ uf ∈ ubt, decode_user_frame o a p bbi uf = Except.ok (some f)
  | [], fs, h, f, hf => by
    simp only [decodeAll] at h
    cases Except.ok.inj h
    cases hf
  | uf :: rest, fs, h, f, hf => by
    simp only [decodeAll] at h
    cases hd : decode_user_frame o a p bbi uf with
    | error e => rw [hd] at h; cases h
    | ok og =>
      rw [hd] at h
      cases og with
      | none => dsimp only at h; cases h
      | some g =>
        dsimp only at h
        cases hrest : decodeAll o a p bbi rest with
        | error e => rw [hrest] at h; cases h
        | ok orest =>
          rw [hrest] at h
          cases orest with
          | none => dsimp only at h; cases h
          | some gs =>
            dsimp only at h
            cases Except.ok.inj h
            rcases List.mem_cons.mp hf with hfg | hfgs
            · subst hfg; exact ⟨uf, List.mem_cons_self uf rest, hd⟩
            · rcases decodeAll_mem hrest f hfgs with ⟨uf', huf', hdec⟩
              exact ⟨uf', List.mem_cons_of_mem uf huf', hdec⟩

/-- A fully decoded backtrace has one frame per user frame. -/
theorem decodeAll_length {o : Option (String → Bool)}
    {a : Option AddressSpaceModel} {p : Process}
    {bbi : List (BinaryId × Binary)} :
    ∀ {ubt : List UserFrame} {fs : List Frame},
      decodeAll o a p bbi ubt = Except.ok (some fs) → fs.length = ubt.length
  | [], fs, h => by
    simp only [decodeAll] at h
    cases Except.ok.inj h
    rfl
  | uf :: rest, fs, h => by
    simp only [decodeAll] at h
    cases hd : decode_user_frame o a p bbi uf with
    | error e => rw [hd] at h; cases h
    | ok og =>
      rw [hd] at h
      cases og with
      | none => dsimp only at h; cases h
      | some g =>
        dsimp only at h
        cases hrest : decodeAll o a p bbi rest with
        | error e => rw [hrest] at h; cases h
        | ok orest =>
          rw [hrest] at h
          cases orest with
          | none => dsimp only at h; cases h
          | some gs =>
            dsimp only at h
            cases Except.ok.inj h
            simp only [List.length_cons, decodeAll_length hrest]

/-- A backtrace containing a filtered frame never decodes fully. -/
theorem decodeAll_filtered {o : Option (String → Bool)}
    {a : Option AddressSpaceModel} {p : Process}
    {bbi : List (BinaryId × Binary)} :
    ∀ {ubt : List UserFrame} {uf : UserFrame}, uf ∈ ubt →
      decode_user_frame o a p bbi uf = Except.ok none →
      ∀ fs, decodeAll o a p bbi ubt ≠ Except.ok (some fs)
  | [], uf, huf, _, _ => absurd huf (List.not_mem_nil uf)
  | uf' :: rest, uf, huf, hdec, fs => by
    intro h
    simp only [decodeAll] at h
    rcases List.mem_cons.mp huf with hfeq | hmem
    · subst hfeq
      rw [hdec] at h
      cases h
    · cases hd : decode_user_frame o a p bbi uf' with
      | error e => rw [hd] at h; cases h
      | ok og =>
        rw [hd] at h
        cases og with
        | none => dsimp only at h; cases h
        | some g =>
          dsimp only at h
          cases hrest : decodeAll o a p bbi rest with
          | error e => rw [hrest] at h; cases h
          | ok orest =>
            rw [hrest] at h
            cases orest with
            | none => dsimp only at h; cases h
            | some gs =>
              exact decodeAll_filtered hmem hdec gs hrest

/-- Inversion of `emit_frames`: either some user frame was filtered and
the histogram is unchanged, or the whole backtrace decoded and exactly the
assembled key was bumped. -/
theorem emit_frames_inv {o : Option (String → Bool)}
    {kallsyms : List ((Nat × Nat) × KernelSymbolM)}
    {a : Option AddressSpaceModel} {bbi : List (BinaryId × Binary)}
    {p : Process} {pid tid : Nat} {ubt : List UserFrame} {kbt : List Nat}
    {hist out : Histogram}
    (h : emit_frames o kallsyms a bbi p pid tid ubt kbt hist = Except.ok out) :
    (decodeAll o a p bbi ubt = Except.ok none ∧ out = hist) ∨
    (∃ ufs, decodeAll o a p bbi ubt = Except.ok (some ufs) ∧
       out = bump hist (kernelFrames kallsyms kbt ++ ufs ++
         [if pid = tid then Frame.MainThread else Frame.Thread tid,
          Frame.Process pid])) := by
  unfold emit_frames at h
  cases hd : decodeAll o a p bbi ubt with
  | error e => rw [hd] at h; cases h
  | ok og =>
    rw [hd] at h
    cases og with
    | none => dsimp only at h; left; exact ⟨rfl, (Except.ok.inj h).symm⟩
    | some ufs => dsimp only at h; right; exact ⟨ufs, rfl, (Except.ok.inj h).symm⟩

/-- Every frame built from a kernel backtrace is a kernel frame. -/
theorem kernelFrames_mem {kallsyms : List ((Nat × Nat) × KernelSymbolM)}
    {kbt : List Nat} {f : Frame} (hf : f ∈ kernelFrames kallsyms kbt) :
    isKernelFrame f = true := by
  unfold kernelFrames at hf
  rcases List.mem_map.mp hf with ⟨addr, _, hmap⟩
  cases hidx : rangeGetIndex kallsyms addr with
  | none => rw [hidx] at hmap; rw [← hmap]; rfl
  | some i => rw [hidx] at hmap; rw [← hmap]; rfl

/-- Claim C1: for a user frame whose effective address lies in a region
whose `BinaryId` has a registered `Binary` (and, as required by the
classifier's `expect`, a recorded base address), and with no omit regex,
the classifier tries Debug, then Original, then AddressSpace; the first
source resolving the lookup key yields `UserSymbol` with that source's
tag, and a complete miss yields `UserBinary` at the effective absolute
address.  `firstResolvedSpec` is the claim's precedence order. -/
theorem c1_symbol_source_precedence
    {a : Option AddressSpaceModel} {p : Process}
    {bbi : List (BinaryId × Binary)} {uf : UserFrame} {region : Region}
    {binary : Binary} {base : Nat}
    (hr : regionGet p.memory_regions (effectiveAddress uf) = some region)
    (hb : assoc bbi (regionBinaryId region) = some binary)
    (hbase : assoc p.base_address_for_binary (regionBinaryId region) = some base) :
    decode_user_frame none a p bbi uf =
      Except.ok (some (firstResolvedSpec
        (binary.debug_symbols.bind fun ds =>
          getSymbolIndex ds (sub64 (effectiveAddress uf) base))
        (binary.symbols.bind fun s =>
          getSymbolIndex s (sub64 (effectiveAddress uf) base))
        (a.bind fun asp =>
          getSymbolIndex (asp.symbolsFor (regionBinaryId region))
            (effectiveAddress uf))
        (regionBinaryId region) (effectiveAddress uf))) := by
  rw [decode_eq_debugSource hr hb]
  exact debugSource_noOmit hbase

/-- Witness for C1: at the fixture both Debug (`foo`) and Original (`bar`)
resolve relative address 50, and the result is tagged Debug. -/
theorem c1_witness :
    regionGet processW.memory_regions (effectiveAddress ufW) = some regionW ∧
    assoc bbiW (regionBinaryId regionW) = some binaryW ∧
    assoc processW.base_address_for_binary (regionBinaryId regionW) = some 100 ∧
    decode_user_frame none (some aspW) processW bbiW ufW =
      Except.ok (some (Frame.UserSymbol idW 0 Table.Debug)) := by
  refine ⟨by decide, by decide, by decide, ?_⟩
  have h := @c1_symbol_source_precedence (some aspW) processW bbiW ufW
    regionW binaryW 100 (by decide) (by decide) (by decide)
  rw [h]
  decide

/-- Claim C2: with an omit regex configured, (1) a sample containing a
filtered user frame leaves the histogram unchanged (the whole stack is
discarded), (2) every newly recorded stack contains no `UserSymbol` frame
whose resolved name matches, and (3) a filtered frame really is one that
resolves (without the regex) to a symbol whose resolved name matches. -/
theorem c2_omit_discards_stack (rx : String → Bool)
    (kallsyms : List ((Nat × Nat) × KernelSymbolM))
    (a : Option AddressSpaceModel) (bbi : List (BinaryId × Binary))
    (p : Process) (pid tid : Nat) (ubt : List UserFrame) (kbt : List Nat)
    (hist : Histogram) :
    (∀ out, emit_frames (some rx) kallsyms a bbi p pid tid ubt kbt hist =
        Except.ok out →
      ((∃ uf ∈ ubt, decode_user_frame (some rx) a p bbi uf = Except.ok none) →
        out = hist) ∧
      (∀ key ∈ out.map (fun e => e.1), key ∈ hist.map (fun e => e.1) ∨
        ∀ f ∈ key, ∀ id i tag, f = Frame.UserSymbol id i tag →
          ∀ n, resolvedName a bbi id i tag = some n → rx n = false)) ∧
    (∀ uf, decode_user_frame (some rx) a p bbi uf = Except.ok none →
      ∃ id i tag n, decode_user_frame none a p bbi uf =
          Except.ok (some (Frame.UserSymbol id i tag)) ∧
        resolvedName a bbi id i tag = some n ∧ rx n = true) := by
  constructor
  · intro out hout
    rcases emit_frames_inv hout with ⟨hda, hsame⟩ | ⟨ufs, hda, hb⟩
    · constructor
      · intro _; exact hsame
      · intro key hkey
        left
        rw [← hsame]
        exact hkey
    · constructor
      · rintro ⟨uf, huf, hdec⟩
        exact absurd hda (decodeAll_filtered huf hdec ufs)
      · intro key hkey
        rw [hb] at hkey
        rcases bump_keys hist _ key hkey with hold | hnew
        · left; exact hold
        · right
          intro f hf id i tag hftag n hn
          subst hftag
          subst hnew
          rcases List.mem_append.mp hf with hf' | hmk
          · rcases List.mem_append.mp hf' with hk | hu
            · cases kernelFrames_mem hk
            · rcases decodeAll_mem hda _ hu with ⟨uf, _, hdec⟩
              rcases decode_userSymbol_inv hdec with ⟨_, _, _, homit⟩
              exact homit rx rfl n hn
          · rcases List.mem_cons.mp hmk with hf1 | hf2
            · by_cases hpt : pid = tid
              · rw [if_pos hpt] at hf1; cases hf1
              · rw [if_neg hpt] at hf1; cases hf1
            · rcases List.mem_cons.mp hf2 with hf1 | hf3
              · cases hf1
              · cases hf3
  · intro uf hdec
    rcases decode_filtered_inv hdec with ⟨id, i, tag, n, h1, h2, rx', hrx', hmatch⟩
    cases Option.some.inj hrx'
    exact ⟨id, i, tag, n, h1, h2, hmatch⟩

/-- Witness for C2: the fixture frame resolves to `foo`, which the regex
matches, so the whole stack is discarded and the histogram is unchanged. -/
theorem c2_witness :
    (∃ uf ∈ [ufW], decode_user_frame (some rxW) (some aspW) processW bbiW uf =
      Except.ok none) ∧
    ∃ out, emit_frames (some rxW) [] (some aspW) bbiW processW 7 7 [ufW] []
        [([Frame.MainThread], 3)] = Except.ok out ∧
      out = [([Frame.MainThread], 3)] := by
  have htrig : ∃ uf ∈ [ufW],
      decode_user_frame (some rxW) (some aspW) processW bbiW uf =
        Except.ok none :=
    ⟨ufW, List.mem_singleton.mpr rfl, by decide⟩
  have hemit : emit_frames (some rxW) [] (some aspW) bbiW processW 7 7 [ufW] []
      [([Frame.MainThread], 3)] = Except.ok [([Frame.MainThread], 3)] := by
    decide
  refine ⟨htrig, [([Frame.MainThread], 3)], hemit, ?_⟩
  exact ((c2_omit_discards_stack rxW [] (some aspW) bbiW processW 7 7 [ufW] []
    [([Frame.MainThread], 3)]).1 _ hemit).1 htrig

/-- Amended claim C3: a `UserSymbol(id, i, tag)` frame produced by the
classifier has its binary registered, and the symbol's range contains the
lookup key of the tagged source: `effective - base` for Debug and
Original, but the effective absolute address itself for AddressSpace. -/
theorem c3_amended_symbol_range {o : Option (String → Bool)}
    {a : Option AddressSpaceModel} {p : Process}
    {bbi : List (BinaryId × Binary)} {uf : UserFrame} {id : BinaryId}
    {i : Nat} {tag : Table}
    (h : decode_user_frame o a p bbi uf =
      Except.ok (some (Frame.UserSymbol id i tag))) :
    ∃ binary, assoc bbi id = some binary ∧
      (match tag with
       | Table.Debug => ∃ ds base, binary.debug_symbols = some ds ∧
           assoc p.base_address_for_binary id = some base ∧
           entryContainsB ds i (sub64 (effectiveAddress uf) base) = true
       | Table.Original => ∃ s base, binary.symbols = some s ∧
           assoc p.base_address_for_binary id = some base ∧
           entryContainsB s i (sub64 (effectiveAddress uf) base) = true
       | Table.AddressSpace => ∃ asp, a = some asp ∧
           entryContainsB (asp.symbolsFor id) i (effectiveAddress uf) = true) := by
  rcases decode_userSymbol_inv h with ⟨binary, hb, hsrc, _⟩
  refine ⟨binary, hb, ?_⟩
  cases tag
  · dsimp only at hsrc ⊢
    rcases hsrc with ⟨ds, base, h1, h2, h3⟩
    exact ⟨ds, base, h1, h2, getSymbolIndex_sound h3⟩
  · dsimp only at hsrc ⊢
    rcases hsrc with ⟨s, base, h1, h2, h3⟩
    exact ⟨s, base, h1, h2, getSymbolIndex_sound h3⟩
  · dsimp only at hsrc ⊢
    rcases hsrc with ⟨asp, h1, h2⟩
    exact ⟨asp, h1, getSymbolIndex_sound h2⟩

/-- Counterexample to C3 as stated: an `AddressSpace`-tagged frame whose
symbol range contains the absolute address 150 but not
`effective - base = 50`, even though the base 100 is recorded. -/
theorem c3_counterexample :
    decode_user_frame none (some aspW) processW [(idW, binaryNoSymsW)] ufW =
      Except.ok (some (Frame.UserSymbol idW 0 Table.AddressSpace)) ∧
    assoc processW.base_address_for_binary idW = some 100 ∧
    entryContainsB (aspW.symbolsFor idW) 0
      (sub64 (effectiveAddress ufW) 100) = false := by
  decide

/-- Witness for the amended C3: at the fixture's Debug hit, symbol 0 of
the debug table contains `sub64 150 100 = 50`. -/
theorem c3_witness :
    decode_user_frame none (some aspW) processW bbiW ufW =
      Except.ok (some (Frame.UserSymbol idW 0 Table.Debug)) ∧
    ∃ binary, assoc bbiW idW = some binary ∧
      ∃ ds base, binary.debug_symbols = some ds ∧
        assoc processW.base_address_for_binary idW = some base ∧
        entryContainsB ds 0 (sub64 (effectiveAddress ufW) base) = true := by
  have hdec : decode_user_frame none (some aspW) processW bbiW ufW =
      Except.ok (some (Frame.UserSymbol idW 0 Table.Debug)) := by decide
  refine ⟨hdec, ?_⟩
  rcases c3_amended_symbol_range hdec with ⟨binary, hb, hrest⟩
  exact ⟨binary, hb, hrest⟩

/-- Claim C7: every stack inserted by `emit_frames` has exactly the shape
kernel frames, then one decoded frame per user frame in order, then the
thread marker (`MainThread` iff `tid = pid`), then `Process pid`; the
count keyed by this exact sequence rises by one and no other count
changes.  When the omit filter fired, the histogram is unchanged. -/
theorem c7_emit_shape {o : Option (String → Bool)}
    {kallsyms : List ((Nat × Nat) × KernelSymbolM)}
    {a : Option AddressSpaceModel} {bbi : List (BinaryId × Binary)}
    {p : Process} {pid tid : Nat} {ubt : List UserFrame} {kbt : List Nat}
    {hist out : Histogram}
    (h : emit_frames o kallsyms a bbi p pid tid ubt kbt hist = Except.ok out) :
    out = hist ∨
    ∃ ufs key, decodeAll o a p bbi ubt = Except.ok (some ufs) ∧
      ufs.length = ubt.length ∧
      key = kernelFrames kallsyms kbt ++ ufs ++
        [if pid = tid then Frame.MainThread else Frame.Thread tid,
         Frame.Process pid] ∧
      out = bump hist key ∧
      ((if pid = tid then Frame.MainThread else Frame.Thread tid) =
          Frame.MainThread ↔ tid = pid) ∧
      histCount out key = histCount hist key + 1 ∧
      ∀ k, k ≠ key → histCount out k = histCount hist k := by
  rcases emit_frames_inv h with ⟨_, hsame⟩ | ⟨ufs, hda, hb⟩
  · left; exact hsame
  · right
    refine ⟨ufs, _, hda, decodeAll_length hda, rfl, hb, ?_, ?_, ?_⟩
    · by_cases hpt : pid = tid
      · rw [if_pos hpt]
        simp [hpt]
      · rw [if_neg hpt]
        constructor
        · intro hth; cases hth
        · intro htp; exact absurd htp.symm hpt
    · rw [hb]; exact histCount_bump_self hist _
    · intro k hk
      rw [hb]
      exact histCount_bump_other hist _ k hk

/-- Witness for C7: the fixture sample inserts exactly the stack
`[UserSymbol Debug, MainThread, Process 7]` with count one. -/
theorem c7_witness :
    emit_frames none [] (some aspW) bbiW processW 7 7 [ufW] [] [] =
      Except.ok [([Frame.UserSymbol idW 0 Table.Debug, Frame.MainThread,
        Frame.Process 7], 1)] ∧
    histCount [([Frame.UserSymbol idW 0 Table.Debug, Frame.MainThread,
        Frame.Process 7], 1)]
      [Frame.UserSymbol idW 0 Table.Debug, Frame.MainThread,
        Frame.Process 7] =
      histCount ([] : Histogram)
        [Frame.UserSymbol idW 0 Table.Debug, Frame.MainThread,
          Frame.Process 7] + 1 := by
  have hemit : emit_frames none [] (some aspW) bbiW processW 7 7 [ufW] [] [] =
      Except.ok [([Frame.UserSymbol idW 0 Table.Debug, Frame.MainThread,
        Frame.Process 7], 1)] := by decide
  refine ⟨hemit, ?_⟩
  rcases c7_emit_shape hemit with hsame | ⟨ufs, key, hda, _, hkey, _, _, hcount, _⟩
  · cases hsame
  · have hufs : ufs = [Frame.UserSymbol idW 0 Table.Debug] := by
      have h2 : Except.ok (some [Frame.UserSymbol idW 0 Table.Debug]) =
          Except.ok (some ufs) :=
        (by decide : decodeAll none (some aspW) processW bbiW [ufW] =
          Except.ok (some [Frame.UserSymbol idW 0 Table.Debug])).symm.trans hda
      exact (Option.some.inj (Except.ok.inj h2)).symm
    subst hufs
    subst hkey
    exact hcount

/-- Claim C8: `BinaryData::load_from_fs` with an expected id fails with the
identity-mismatch error (returning no binary) exactly when the stat-derived
triple differs, and otherwise hands the file to the ELF loading stage. -/
theorem c8_load_from_fs_identity
    (loadFn : String → BinaryId → List Nat → Except LoadError BinaryDataM)
    (expected : BinaryId) (file : FsFile) :
    (({ inode := file.inode, dev_major := file.dev_major,
        dev_minor := file.dev_minor } : BinaryId) ≠ expected →
      load_from_fs loadFn (some expected) file =
        Except.error (LoadError.identityMismatch
          { inode := file.inode, dev_major := file.dev_major,
            dev_minor := file.dev_minor } expected)) ∧
    (({ inode := file.inode, dev_major := file.dev_major,
        dev_minor := file.dev_minor } : BinaryId) = expected →
      load_from_fs loadFn (some expected) file =
        loadFn file.path
          { inode := file.inode, dev_major := file.dev_major,
            dev_minor := file.dev_minor } file.bytes) := by
  constructor
  · intro h
    unfold load_from_fs
    dsimp only
    rw [if_pos h]
  · intro h
    unfold load_from_fs
    dsimp only
    rw [if_neg (by simp [h])]

/-- Witness for C8: the fixture file (5, 1, 2) is rejected against the
expected id (9, 9, 9) and accepted against (5, 1, 2). -/
theorem c8_witness :
    load_from_fs loadFnW
        (some { inode := 9, dev_major := 9, dev_minor := 9 }) fileW =
      Except.error (LoadError.identityMismatch
        { inode := 5, dev_major := 1, dev_minor := 2 }
        { inode := 9, dev_major := 9, dev_minor := 9 }) ∧
    load_from_fs loadFnW
        (some { inode := 5, dev_major := 1, dev_minor := 2 }) fileW =
      loadFnW fileW.path { inode := 5, dev_major := 1, dev_minor := 2 }
        fileW.bytes := by
  exact ⟨(c8_load_from_fs_identity loadFnW
      { inode := 9, dev_major := 9, dev_minor := 9 } fileW).1 (by decide),
    (c8_load_from_fs_identity loadFnW
      { inode := 5, dev_major := 1, dev_minor := 2 } fileW).2 (by decide)⟩

/-- Replaying an appended packet list is replaying the first part, then
the second from the reached state. -/
theorem collate_run_from_append (args : Args) (oracle : Oracles)
    (st : CollateState) (xs ys : List Packet) :
    collate_run_from args oracle st (xs ++ ys) =
      match collate_run_from args oracle st xs with
      | Except.error e => Except.error e
      | Except.ok st' => collate_run_from args oracle st' ys := by
  induction xs generalizing st with
  | nil => simp [collate_run_from]
  | cons p rest ih =>
    simp only [List.cons_append, collate_run_from]
    cases collate_step args oracle st p with
    | error e => rfl
    | ok st' => exact ih st'

/-- A state predicate preserved by every step is preserved by a replay. -/
theorem collate_run_from_induct (args : Args) (oracle : Oracles)
    (P : CollateState → Prop)
    (hstep : ∀ st p st', P st → collate_step args oracle st p = Except.ok st' →
      P st') :
    ∀ pkts st st', P st → collate_run_from args oracle st pkts = Except.ok st' →
      P st' := by
  intro pkts
  induction pkts with
  | nil =>
    intro st st' hP h
    simp only [collate_run_from] at h
    cases Except.ok.inj h
    exact hP
  | cons p rest ih =>
    intro st st' hP h
    simp only [collate_run_from] at h
    cases hs : collate_step args oracle st p with
    | error e => rw [hs] at h; cases h
    | ok st1 =>
      rw [hs] at h
      exact ih st1 st' (hstep st p st1 hP hs) h

/-- A state predicate preserved by every step on packets of the list is
preserved by replaying the list. -/
theorem collate_run_from_induct_mem (args : Args) (oracle : Oracles)
    (P : CollateState → Prop) :
    ∀ pkts st st',
      (∀ q ∈ pkts, ∀ s s', P s → collate_step args oracle s q = Except.ok s' →
        P s') →
      P st → collate_run_from args oracle st pkts = Except.ok st' → P st' := by
  intro pkts
  induction pkts with
  | nil =>
    intro st st' _ hP h
    simp only [collate_run_from] at h
    cases Except.ok.inj h
    exact hP
  | cons p rest ih =>
    intro st st' hstep hP h
    simp only [collate_run_from] at h
    cases hs : collate_step args oracle st p with
    | error e => rw [hs] at h; cases h
    | ok st1 =>
      rw [hs] at h
      exact ih st1 st'
        (fun q hq => hstep q (List.mem_cons_of_mem p hq))
        (hstep p (List.mem_cons_self p rest) st st1 hP hs) h

/-- `assocSet` replaces in place at an existing key. -/
theorem assocSet_cons_eq {α β : Type} [DecidableEq α] (k : α) (v' v : β)
    (rest : List (α × β)) : assocSet ((k, v') :: rest) k v = (k, v) :: rest := by
  simp [assocSet]

/-- `assocSet` walks past a different key. -/
theorem assocSet_cons_ne {α β : Type} [DecidableEq α] {k' k : α} (h : k' ≠ k)
    (v' v : β) (rest : List (α × β)) :
    assocSet ((k', v') :: rest) k v = (k', v') :: assocSet rest k v := by
  simp [assocSet, h]

/-- Lookup after an insert-or-replace. -/
theorem assoc_assocSet {α β : Type} [DecidableEq α] (l : List (α × β))
    (k : α) (v : β) (k' : α) :
    assoc (assocSet l k v) k' = if k = k' then some v else assoc l k' := by
  induction l with
  | nil => simp only [assocSet, assoc_cons]
  | cons e rest ih =>
    obtain ⟨k'', v''⟩ := e
    by_cases hk : k'' = k
    · subst hk
      rw [assocSet_cons_eq]
      by_cases hkk : k'' = k'
      · rw [assoc_cons, if_pos hkk, if_pos hkk]
      · rw [assoc_cons, if_neg hkk, if_neg hkk, assoc_cons, if_neg hkk]
    · rw [assocSet_cons_ne hk]
      rw [assoc_cons]
      by_cases hkk : k'' = k'
      · rw [if_pos hkk]
        have hkne : k ≠ k' := fun he => hk (hkk.trans he.symm)
        rw [if_neg hkne, assoc_cons, if_pos hkk]
      · rw [if_neg hkk, ih]
        by_cases hkq : k = k'
        · rw [if_pos hkq, if_pos hkq]
        · rw [if_neg hkq, if_neg hkq, assoc_cons, if_neg hkk]

/-- Inversion of the cooked-sample body: empty process table is excluded by
success; either the pid filter skipped the sample unchanged, or the frames
were aggregated and the counter advanced. -/
theorem sampleBody_inv {args : Args} {st : CollateState} {pid tid : Nat}
    {ubt : List UserFrame} {kbt : List Nat} {st' : CollateState}
    (h : sampleBody args st pid tid ubt kbt = Except.ok st') :
    ∃ process rest, st.processes = process :: rest ∧
      ((process.pid ≠ pid ∧ st' = st) ∨
       (process.pid = pid ∧ ∃ stackMap',
          emit_frames args.omit_regex st.kallsyms none st.binary_by_id
            process pid tid ubt
            (if args.without_kernel_callstacks then [] else kbt)
            st.stackMap = Except.ok stackMap' ∧
          st' = { st with stackMap := stackMap',
                          sample_counter := st.sample_counter + 1 })) := by
  unfold sampleBody at h
  cases hp : st.processes with
  | nil => rw [hp] at h; cases h
  | cons process rest =>
    rw [hp] at h
    dsimp only at h
    by_cases hpid : process.pid ≠ pid
    · rw [if_pos hpid] at h
      exact ⟨process, rest, rfl, Or.inl ⟨hpid, (Except.ok.inj h).symm⟩⟩
    · rw [if_neg hpid] at h
      push_neg at hpid
      cases he : emit_frames args.omit_regex st.kallsyms none st.binary_by_id
          process pid tid ubt
          (if args.without_kernel_callstacks then [] else kbt) st.stackMap with
      | error e => rw [he] at h; cases h
      | ok stackMap' =>
        rw [he] at h
        dsimp only at h
        exact ⟨process, rest, rfl,
          Or.inr ⟨hpid, stackMap', he, (Except.ok.inj h).symm⟩⟩

/-- Inversion of the `Sample` arm. -/
theorem stepSample_inv {args : Args} {st : CollateState} {pid tid : Nat}
    {ubt : List UserFrame} {kbt : List Nat} {st' : CollateState}
    (h : stepSample args st pid tid ubt kbt = Except.ok st') :
    (sampleSkipSelected args st = true ∧
      st' = { st with sample_counter := st.sample_counter + 1 }) ∨
    (sampleSkipSelected args st = false ∧
      ∃ process rest, st.processes = process :: rest ∧
        ((process.pid ≠ pid ∧ st' = st) ∨
         (process.pid = pid ∧ ∃ stackMap',
            emit_frames args.omit_regex st.kallsyms none st.binary_by_id
              process pid tid ubt
              (if args.without_kernel_callstacks then [] else kbt)
              st.stackMap = Except.ok stackMap' ∧
            st' = { st with stackMap := stackMap',
                            sample_counter := st.sample_counter + 1 }))) := by
  unfold stepSample at h
  cases ho : args.only_sample with
  | some k =>
    rw [ho] at h
    dsimp only at h
    by_cases hk : k ≠ st.sample_counter
    · rw [if_pos hk] at h
      left
      constructor
      · simp [sampleSkipSelected, ho, hk]
      · exact (Except.ok.inj h).symm
    · rw [if_neg hk] at h
      push_neg at hk
      right
      exact ⟨by simp [sampleSkipSelected, ho, hk], sampleBody_inv h⟩
  | none =>
    rw [ho] at h
    dsimp only at h
    right
    exact ⟨by simp [sampleSkipSelected, ho], sampleBody_inv h⟩

/-- Inversion of the raw-sample body: as for cooked samples, except that a
missing address space merely advances the counter, and aggregation goes
through the reloaded address space and the unwinder oracle. -/
theorem rawSampleBody_inv {args : Args} {oracle : Oracles}
    {st : CollateState} {pid tid : Nat} {stack : List Nat}
    {regs : List (Nat × Nat)} {kbt : List Nat} {st' : CollateState}
    (h : rawSampleBody args oracle st pid tid stack regs kbt = Except.ok st') :
    ∃ process rest, st.processes = process :: rest ∧
      ((process.pid ≠ pid ∧ st' = st) ∨
       (process.pid = pid ∧
         ((st.address_space = none ∧
            st' = { st with sample_counter := st.sample_counter + 1 }) ∨
          (∃ asp asp' process' stackMap', st.address_space = some asp ∧
            emit_frames args.omit_regex st.kallsyms (some asp')
              st.binary_by_id process' pid tid
              (oracle.unwind regs (match args.force_stack_size with
                | some n => stack.take (min n stack.length)
                | none => stack))
              (if args.without_kernel_callstacks then [] else kbt)
              st.stackMap = Except.ok stackMap' ∧
            st' = { st with stackMap := stackMap',
                            processes := process' :: rest,
                            address_space := some asp',
                            sample_counter := st.sample_counter + 1 })))) := by
  unfold rawSampleBody at h
  cases hp : st.processes with
  | nil => rw [hp] at h; cases h
  | cons process rest =>
    rw [hp] at h
    dsimp only at h
    by_cases hpid : process.pid ≠ pid
    · rw [if_pos hpid] at h
      exact ⟨process, rest, rfl, Or.inl ⟨hpid, (Except.ok.inj h).symm⟩⟩
    · rw [if_neg hpid] at h
      push_neg at hpid
      cases ha : st.address_space with
      | none =>
        rw [ha] at h
        dsimp only at h
        exact ⟨process, rest, rfl,
          Or.inr ⟨hpid, Or.inl ⟨rfl, (Except.ok.inj h).symm⟩⟩⟩
      | some asp =>
        rw [ha] at h
        dsimp only at h
        cases he : emit_frames args.omit_regex st.kallsyms
            (some (if process.address_space_needs_reload
              then { symbolsFor := oracle.reload
                       (st.binary_source_map.map (fun e => e.1))
                       process.memory_regions }
              else asp))
            st.binary_by_id
            (if process.address_space_needs_reload
              then { process with address_space_needs_reload := false }
              else process)
            pid tid
            (oracle.unwind regs (match args.force_stack_size with
              | some n => stack.take (min n stack.length)
              | none => stack))
            (if args.without_kernel_callstacks then [] else kbt)
            st.stackMap with
        | error e => rw [he] at h; cases h
        | ok stackMap' =>
          rw [he] at h
          dsimp only at h
          exact ⟨process, rest, rfl, Or.inr ⟨hpid, Or.inr
            ⟨asp, _, _, stackMap', rfl, he, (Except.ok.inj h).symm⟩⟩⟩

/-- Inversion of the `RawSample` arm. -/
theorem stepRawSample_inv {args : Args} {oracle : Oracles}
    {st : CollateState} {pid tid : Nat} {stack : List Nat}
    {regs : List (Nat × Nat)} {kbt : List Nat} {st' : CollateState}
    (h : stepRawSample args oracle st pid tid stack regs kbt = Except.ok st') :
    (sampleSkipSelected args st = true ∧
      st' = { st with sample_counter := st.sample_counter + 1 }) ∨
    (sampleSkipSelected args st = false ∧
      ∃ process rest, st.processes = process :: rest ∧
        ((process.pid ≠ pid ∧ st' = st) ∨
         (process.pid = pid ∧
           ((st.address_space = none ∧
              st' = { st with sample_counter := st.sample_counter + 1 }) ∨
            (∃ asp asp' process' stackMap', st.address_space = some asp ∧
              emit_frames args.omit_regex st.kallsyms (some asp')
                st.binary_by_id process' pid tid
                (oracle.unwind regs (match args.force_stack_size with
                  | some n => stack.take (min n stack.length)
                  | none => stack))
                (if args.without_kernel_callstacks then [] else kbt)
                st.stackMap = Except.ok stackMap' ∧
              st' = { st with stackMap := stackMap',
                              processes := process' :: rest,
                              address_space := some asp',
                              sample_counter := st.sample_counter + 1 }))))) := by
  unfold stepRawSample at h
  cases ho : args.only_sample with
  | some k =>
    rw [ho] at h
    dsimp only at h
    by_cases hk : k ≠ st.sample_counter
    · rw [if_pos hk] at h
      left
      constructor
      · simp [sampleSkipSelected, ho, hk]
      · exact (Except.ok.inj h).symm
    · rw [if_neg hk] at h
      push_neg at hk
      right
      exact ⟨by simp [sampleSkipSelected, ho, hk], rawSampleBody_inv h⟩
  | none =>
    rw [ho] at h
    dsimp only at h
    right
    exact ⟨by simp [sampleSkipSelected, ho], rawSampleBody_inv h⟩

/-- Non-sample packets leave the histogram and the sample counter
untouched. -/
theorem collate_step_nonsample {args : Args} {oracle : Oracles}
    {st : CollateState} {p : Packet} {st' : CollateState}
    (hns : isSampleCarrying p = false)
    (h : collate_step args oracle st p = Except.ok st') :
    st'.stackMap = st.stackMap ∧ st'.sample_counter = st.sample_counter := by
  cases p <;>
    first
      | exact Bool.noConfusion hns
      | (simp only [collate_step] at h
         (repeat' split at h) <;>
           first
             | (cases Except.ok.inj h; exact ⟨rfl, rfl⟩)
             | cases h)

/-- Amended claim C4: one step of the replay advances the sample counter
by one exactly for the sample-carrying packets that are either rejected by
the `only_sample` selector or pass the pid filter; a selected sample whose
pid differs from `processes[0].pid` is skipped without incrementing the
counter, and non-sample packets never change it. -/
theorem c4_amended_counter {args : Args} {oracle : Oracles}
    {st : CollateState} {p : Packet} {st' : CollateState}
    (h : collate_step args oracle st p = Except.ok st') :
    st'.sample_counter =
      if isSampleCarrying p = true then
        if sampleSkipSelected args st = true then st.sample_counter + 1
        else if pidMismatch st p = true then st.sample_counter
        else st.sample_counter + 1
      else st.sample_counter := by
  by_cases hns : isSampleCarrying p = true
  case neg =>
    rw [if_neg hns]
    have hf : isSampleCarrying p = false := by
      cases hb : isSampleCarrying p
      · rfl
      · exact absurd hb hns
    exact (collate_step_nonsample hf h).2
  case pos =>
    rw [if_pos hns]
    cases p with
    | Sample pid tid ubt kbt =>
      rcases stepSample_inv h with ⟨hskip, hst⟩ |
        ⟨hskip, process, rest, hp, hcases⟩
      · rw [if_pos hskip, hst]
      · rw [if_neg (ne_true_of_eq_false hskip)]
        rcases hcases with ⟨hpidne, hst⟩ | ⟨hpideq, sm, hemit, hst⟩
        · have hm : pidMismatch st (Packet.Sample pid tid ubt kbt) = true := by
            simp [pidMismatch, samplePid, hp, hpidne]
          rw [if_pos hm, hst]
        · have hm : pidMismatch st (Packet.Sample pid tid ubt kbt) = false := by
            simp [pidMismatch, samplePid, hp, hpideq]
          rw [if_neg (ne_true_of_eq_false hm), hst]
    | RawSample pid tid stack regs kbt =>
      rcases stepRawSample_inv h with ⟨hskip, hst⟩ |
        ⟨hskip, process, rest, hp, hcases⟩
      · rw [if_pos hskip, hst]
      · rw [if_neg (ne_true_of_eq_false hskip)]
        rcases hcases with ⟨hpidne, hst⟩ | ⟨hpideq, hrest⟩
        · have hm : pidMismatch st (Packet.RawSample pid tid stack regs kbt) =
              true := by
            simp [pidMismatch, samplePid, hp, hpidne]
          rw [if_pos hm, hst]
        · have hm : pidMismatch st (Packet.RawSample pid tid stack regs kbt) =
              false := by
            simp [pidMismatch, samplePid, hp, hpideq]
          rw [if_neg (ne_true_of_eq_false hm)]
          rcases hrest with ⟨_, hst⟩ | ⟨asp, asp', process', sm, _, _, hst⟩
          · rw [hst]
          · rw [hst]
    | MachineInfo a b c => exact Bool.noConfusion hns
    | ProcessInfo a b => exact Bool.noConfusion hns
    | BinaryInfo a b c d => exact Bool.noConfusion hns
    | MemoryRegionMap a b c d e f g i j k l m => exact Bool.noConfusion hns
    | MemoryRegionUnmap a b c => exact Bool.noConfusion hns
    | BinaryMap a b c => exact Bool.noConfusion hns
    | BinaryUnmap a b => exact Bool.noConfusion hns
    | StringTable a b c => exact Bool.noConfusion hns
    | SymbolTable a b c d e => exact Bool.noConfusion hns
    | BinaryBlob a b c => exact Bool.noConfusion hns
    | FileBlob a b => exact Bool.noConfusion hns
    | ThreadName a b => exact Bool.noConfusion hns
    | Other => exact Bool.noConfusion hns

/-- Counterexample to C4 as stated: one `ProcessInfo` for pid 1 followed by
one `Sample` from pid 2; the stream has one sample-carrying packet, yet the
final counter is 0 because the pid filter skips without incrementing. -/
theorem c4_counterexample :
    (collate_run argsW oracleW []
        [Packet.ProcessInfo 1 "a", Packet.Sample 2 2 [] []]).map
      (fun st => st.sample_counter) = Except.ok 0 ∧
    (([Packet.ProcessInfo 1 "a",
       Packet.Sample 2 2 [] []].filter isSampleCarrying).length = 1) ∧
    (0 : Nat) ≠ 1 := by
  refine ⟨rfl, rfl, by decide⟩

/-- Witness for the amended C4: a `Sample` rejected by `only_sample = 5`
advances the counter from 0 to 1. -/
theorem c4_witness :
    collate_step argsOnly5W oracleW (initState []) (Packet.Sample 2 2 [] []) =
      Except.ok { initState [] with sample_counter := 1 } ∧
    ({ initState [] with sample_counter := 1 } : CollateState).sample_counter
      = 1 := by
  have hstep : collate_step argsOnly5W oracleW (initState [])
      (Packet.Sample 2 2 [] []) =
      Except.ok { initState [] with sample_counter := 1 } := rfl
  refine ⟨hstep, ?_⟩
  rw [c4_amended_counter hstep]
  decide

/-- With `only_sample = k`, one replay step keeps the histogram total at
most one, and at zero while the counter has not passed `k`. -/
theorem c5_step_invariant {args : Args} {oracle : Oracles} {k : Nat}
    (ho : args.only_sample = some k) {st st' : CollateState} {p : Packet}
    (h : collate_step args oracle st p = Except.ok st')
    (hP : histTotal st.stackMap ≤ 1 ∧
      (st.sample_counter ≤ k → histTotal st.stackMap = 0)) :
    histTotal st'.stackMap ≤ 1 ∧
      (st'.sample_counter ≤ k → histTotal st'.stackMap = 0) := by
  by_cases hns : isSampleCarrying p = true
  case neg =>
    have hf : isSampleCarrying p = false := by
      cases hb : isSampleCarrying p
      · rfl
      · exact absurd hb hns
    obtain ⟨hs, hc⟩ := collate_step_nonsample hf h
    rw [hs, hc]
    exact hP
  case pos =>
    cases p with
    | Sample pid tid ubt kbt =>
      rcases stepSample_inv h with ⟨_, hst⟩ |
        ⟨hskip, process, rest, hp, hcases⟩
      · subst hst
        dsimp only
        exact ⟨hP.1, fun hle => hP.2 (Nat.le_of_succ_le hle)⟩
      · have hksel : k = st.sample_counter := by
          simpa [sampleSkipSelected, ho] using hskip
        rcases hcases with ⟨_, hst⟩ | ⟨_, sm, hemit, hst⟩
        · subst hst; exact hP
        · subst hst
          dsimp only
          have h0 : histTotal st.stackMap = 0 := hP.2 (le_of_eq hksel.symm)
          rcases emit_frames_inv hemit with ⟨_, hsame⟩ | ⟨ufs, _, hbump⟩
          · subst hsame
            refine ⟨hP.1, fun hle => absurd hle (by omega)⟩
          · subst hbump
            constructor
            · rw [histTotal_bump, h0]
            · intro hle
              exact absurd hle (by omega)
    | RawSample pid tid stack regs kbt =>
      rcases stepRawSample_inv h with ⟨_, hst⟩ |
        ⟨hskip, process, rest, hp, hcases⟩
      · subst hst
        dsimp only
        exact ⟨hP.1, fun hle => hP.2 (Nat.le_of_succ_le hle)⟩
      · have hksel : k = st.sample_counter := by
          simpa [sampleSkipSelected, ho] using hskip
        rcases hcases with ⟨_, hst⟩ | ⟨_, hrest⟩
        · subst hst; exact hP
        · rcases hrest with ⟨_, hst⟩ |
            ⟨asp, asp', process', sm, _, hemit, hst⟩
          · subst hst
            dsimp only
            refine ⟨hP.1, fun hle => absurd hle (by omega)⟩
          · subst hst
            dsimp only
            have h0 : histTotal st.stackMap = 0 := hP.2 (le_of_eq hksel.symm)
            rcases emit_frames_inv hemit with ⟨_, hsame⟩ | ⟨ufs, _, hbump⟩
            · subst hsame
              refine ⟨hP.1, fun hle => absurd hle (by omega)⟩
            · subst hbump
              constructor
              · rw [histTotal_bump, h0]
              · intro hle
                exact absurd hle (by omega)
    | MachineInfo a b c => exact Bool.noConfusion hns
    | ProcessInfo a b => exact Bool.noConfusion hns
    | BinaryInfo a b c d => exact Bool.noConfusion hns
    | MemoryRegionMap a b c d e f g i j k' l m => exact Bool.noConfusion hns
    | MemoryRegionUnmap a b c => exact Bool.noConfusion hns
    | BinaryMap a b c => exact Bool.noConfusion hns
    | BinaryUnmap a b => exact Bool.noConfusion hns
    | StringTable a b c => exact Bool.noConfusion hns
    | SymbolTable a b c d e => exact Bool.noConfusion hns
    | BinaryBlob a b c => exact Bool.noConfusion hns
    | FileBlob a b => exact Bool.noConfusion hns
    | ThreadName a b => exact Bool.noConfusion hns
    | Other => exact Bool.noConfusion hns

/-- Amended claim C5: with `only_sample = k`, every sample-carrying packet
whose counter value differs from `k` is skipped, advancing only the
counter; and at most one sample is collated, so the histogram's counts
sum to at most 1 (not always exactly 1: a stream may contain no selected
sample, the selected sample may be pid-skipped or not unwindable, or its
stack may be omit-filtered). -/
theorem c5_amended_only_sample (args : Args) (oracle : Oracles) :
    (∀ st p st' k, args.only_sample = some k → k ≠ st.sample_counter →
      isSampleCarrying p = true →
      collate_step args oracle st p = Except.ok st' →
      st' = { st with sample_counter := st.sample_counter + 1 }) ∧
    (∀ dbg pkts st k, args.only_sample = some k →
      collate_run args oracle dbg pkts = Except.ok st →
      histTotal st.stackMap ≤ 1) := by
  constructor
  · intro st p st' k ho hk hsc h
    cases p with
    | Sample pid tid ubt kbt =>
      rcases stepSample_inv h with ⟨_, hst⟩ | ⟨hskip, _, _, _, _⟩
      · exact hst
      · exact absurd hskip (by simp [sampleSkipSelected, ho, hk])
    | RawSample pid tid stack regs kbt =>
      rcases stepRawSample_inv h with ⟨_, hst⟩ | ⟨hskip, _, _, _, _⟩
      · exact hst
      · exact absurd hskip (by simp [sampleSkipSelected, ho, hk])
    | MachineInfo a b c => exact Bool.noConfusion hsc
    | ProcessInfo a b => exact Bool.noConfusion hsc
    | BinaryInfo a b c d => exact Bool.noConfusion hsc
    | MemoryRegionMap a b c d e f g i j k' l m => exact Bool.noConfusion hsc
    | MemoryRegionUnmap a b c => exact Bool.noConfusion hsc
    | BinaryMap a b c => exact Bool.noConfusion hsc
    | BinaryUnmap a b => exact Bool.noConfusion hsc
    | StringTable a b c => exact Bool.noConfusion hsc
    | SymbolTable a b c d e => exact Bool.noConfusion hsc
    | BinaryBlob a b c => exact Bool.noConfusion hsc
    | FileBlob a b => exact Bool.noConfusion hsc
    | ThreadName a b => exact Bool.noConfusion hsc
    | Other => exact Bool.noConfusion hsc
  · intro dbg pkts st k ho hrun
    have hind := collate_run_from_induct args oracle
      (fun s => histTotal s.stackMap ≤ 1 ∧
        (s.sample_counter ≤ k → histTotal s.stackMap = 0))
      (fun s p s' hP hstep => c5_step_invariant ho hstep hP)
      pkts (initState dbg) st
      (by constructor
          · simp [initState, histTotal]
          · intro _; simp [initState, histTotal])
      hrun
    exact hind.1

/-- Counterexample to C5 as stated: with `only_sample = 0`, a stream whose
only sample is from a foreign pid collates nothing; the histogram total is
0, not 1. -/
theorem c5_counterexample :
    (collate_run argsOnly0W oracleW []
        [Packet.ProcessInfo 1 "a", Packet.Sample 2 2 [] []]).map
      (fun st => histTotal st.stackMap) = Except.ok 0 ∧
    (0 : Nat) ≠ 1 := by
  refine ⟨rfl, by decide⟩

/-- Witness for the amended C5: a counter-mismatched sample is skipped
with only the counter advanced, and a replayed stream under `only_sample`
has histogram total at most 1. -/
theorem c5_witness :
    (∃ st', collate_step argsOnly5W oracleW (initState [])
        (Packet.Sample 2 2 [] []) = Except.ok st' ∧
      st' = { initState [] with
        sample_counter := (initState []).sample_counter + 1 }) ∧
    (∃ st, collate_run argsOnly0W oracleW [] [Packet.ProcessInfo 1 "a"] =
        Except.ok st ∧ histTotal st.stackMap ≤ 1) := by
  constructor
  · refine ⟨_, rfl, ?_⟩
    exact (c5_amended_only_sample argsOnly5W oracleW).1 (initState [])
      (Packet.Sample 2 2 [] []) _ 5 rfl (by decide) rfl rfl
  · refine ⟨_, rfl, ?_⟩
    exact (c5_amended_only_sample argsOnly0W oracleW).2 []
      [Packet.ProcessInfo 1 "a"] _ 0 rfl rfl

/-- Aggregating with an empty kernel backtrace adds no kernel frames to
the histogram. -/
theorem emit_nokernel {o : Option (String → Bool)}
    {kallsyms : List ((Nat × Nat) × KernelSymbolM)}
    {a : Option AddressSpaceModel} {bbi : List (BinaryId × Binary)}
    {p : Process} {pid tid : Nat} {ubt : List UserFrame}
    {hist out : Histogram}
    (h : emit_frames o kallsyms a bbi p pid tid ubt [] hist = Except.ok out)
    (hP : ∀ key ∈ hist.map (fun e => e.1), ∀ f ∈ key,
      isKernelFrame f = false) :
    ∀ key ∈ out.map (fun e => e.1), ∀ f ∈ key, isKernelFrame f = false := by
  rcases emit_frames_inv h with ⟨_, hsame⟩ | ⟨ufs, hda, hbump⟩
  · subst hsame; exact hP
  · subst hbump
    intro key hkey f hf
    rcases bump_keys hist _ key hkey with hold | hnew
    · exact hP key hold f hf
    · subst hnew
      rcases List.mem_append.mp hf with hf' | hmk
      · rcases List.mem_append.mp hf' with hk | hu
        · simp [kernelFrames] at hk
        · rcases decodeAll_mem hda f hu with ⟨uf, _, hdec⟩
          exact decode_ok_shape hdec
      · rcases List.mem_cons.mp hmk with hf1 | hf2
        · rw [hf1]
          by_cases hpt : pid = tid
          · rw [if_pos hpt]; rfl
          · rw [if_neg hpt]; rfl
        · rcases List.mem_cons.mp hf2 with hf1 | hf3
          · rw [hf1]; rfl
          · cases hf3

/-- With kernel callstacks disabled, one replay step preserves the absence
of kernel frames in every recorded stack. -/
theorem c6_step_invariant {args : Args} {oracle : Oracles}
    (hflag : args.without_kernel_callstacks = true)
    {st st' : CollateState} {p : Packet}
    (h : collate_step args oracle st p = Except.ok st')
    (hP : ∀ key ∈ st.stackMap.map (fun e => e.1), ∀ f ∈ key,
      isKernelFrame f = false) :
    ∀ key ∈ st'.stackMap.map (fun e => e.1), ∀ f ∈ key,
      isKernelFrame f = false := by
  by_cases hns : isSampleCarrying p = true
  case neg =>
    have hf : isSampleCarrying p = false := by
      cases hb : isSampleCarrying p
      · rfl
      · exact absurd hb hns
    rw [(collate_step_nonsample hf h).1]
    exact hP
  case pos =>
    cases p with
    | Sample pid tid ubt kbt =>
      rcases stepSample_inv h with ⟨_, hst⟩ |
        ⟨_, process, rest, hp, hcases⟩
      · subst hst; exact hP
      · rcases hcases with ⟨_, hst⟩ | ⟨_, sm, hemit, hst⟩
        · subst hst; exact hP
        · subst hst
          have hkbt : (if args.without_kernel_callstacks then ([] : List Nat)
              else kbt) = [] := by simp [hflag]
          rw [hkbt] at hemit
          exact emit_nokernel hemit hP
    | RawSample pid tid stack regs kbt =>
      rcases stepRawSample_inv h with ⟨_, hst⟩ |
        ⟨_, process, rest, hp, hcases⟩
      · subst hst; exact hP
      · rcases hcases with ⟨_, hst⟩ | ⟨_, hrest⟩
        · subst hst; exact hP
        · rcases hrest with ⟨_, hst⟩ |
            ⟨asp, asp', process', sm, _, hemit, hst⟩
          · subst hst; exact hP
          · subst hst
            have hkbt : (if args.without_kernel_callstacks then ([] : List Nat)
                else kbt) = [] := by simp [hflag]
            rw [hkbt] at hemit
            exact emit_nokernel hemit hP
    | MachineInfo a b c => exact Bool.noConfusion hns
    | ProcessInfo a b => exact Bool.noConfusion hns
    | BinaryInfo a b c d => exact Bool.noConfusion hns
    | MemoryRegionMap a b c d e f g i j k l m => exact Bool.noConfusion hns
    | MemoryRegionUnmap a b c => exact Bool.noConfusion hns
    | BinaryMap a b c => exact Bool.noConfusion hns
    | BinaryUnmap a b => exact Bool.noConfusion hns
    | StringTable a b c => exact Bool.noConfusion hns
    | SymbolTable a b c d e => exact Bool.noConfusion hns
    | BinaryBlob a b c => exact Bool.noConfusion hns
    | FileBlob a b => exact Bool.noConfusion hns
    | ThreadName a b => exact Bool.noConfusion hns
    | Other => exact Bool.noConfusion hns

/-- Claim C6: with `without_kernel_callstacks = true`, the kernel
backtrace of every `Sample` and `RawSample` is cleared before
classification, so no stack in the resulting histogram contains a
`Kernel` or `KernelSymbol` frame. -/
theorem c6_without_kernel_callstacks {args : Args} {oracle : Oracles}
    {dbg : List (List Nat × List SymEntry)} {pkts : List Packet}
    {st : CollateState}
    (hflag : args.without_kernel_callstacks = true)
    (hrun : collate_run args oracle dbg pkts = Except.ok st) :
    ∀ key ∈ st.stackMap.map (fun e => e.1), ∀ f ∈ key,
      isKernelFrame f = false := by
  exact collate_run_from_induct args oracle
    (fun s => ∀ key ∈ s.stackMap.map (fun e => e.1), ∀ f ∈ key,
      isKernelFrame f = false)
    (fun s p s' hP h => c6_step_invariant hflag h hP)
    pkts (initState dbg) st
    (by intro key hkey; simp [initState] at hkey)
    hrun

/-- Witness for C6: a sample with a kernel backtrace, replayed with kernel
callstacks disabled, records a stack with no kernel frames. -/
theorem c6_witness :
    ∃ st, collate_run argsNoKW oracleW []
        [Packet.ProcessInfo 1 "a", Packet.Sample 1 1 [] [42]] =
      Except.ok st ∧
      st.stackMap = [([Frame.MainThread, Frame.Process 1], 1)] ∧
      ∀ key ∈ st.stackMap.map (fun e => e.1), ∀ f ∈ key,
        isKernelFrame f = false := by
  refine ⟨_, rfl, rfl, ?_⟩
  exact @c6_without_kernel_callstacks argsNoKW oracleW []
    [Packet.ProcessInfo 1 "a", Packet.Sample 1 1 [] [42]] _ rfl rfl

/-- A step on any packet other than `ProcessInfo` keeps the process table
empty. -/
theorem c9_step_processes_nil {args : Args} {oracle : Oracles}
    {st : CollateState} {p : Packet} {st' : CollateState}
    (hpi : isProcessInfo p = false)
    (h : collate_step args oracle st p = Except.ok st')
    (hproc : st.processes = []) : st'.processes = [] := by
  cases p <;>
    first
      | exact Bool.noConfusion hpi
      | (rcases stepSample_inv h with ⟨_, hst⟩ | ⟨_, process, rest, hp, _⟩
         · rw [hst]; exact hproc
         · rw [hproc] at hp; cases hp)
      | (rcases stepRawSample_inv h with ⟨_, hst⟩ | ⟨_, process, rest, hp, _⟩
         · rw [hst]; exact hproc
         · rw [hproc] at hp; cases hp)
      | (simp only [collate_step] at h
         (repeat' split at h) <;>
           first
             | (cases Except.ok.inj h
                first
                  | exact hproc
                  | simp [hproc])
             | cases h)

/-- A selected sample-carrying packet on an empty process table panics by
indexing `processes[0]`. -/
theorem c9_step_sample_empty {args : Args} {oracle : Oracles}
    {st : CollateState} {p : Packet}
    (hsc : isSampleCarrying p = true) (hproc : st.processes = [])
    (hsel : args.only_sample = none ∨
      args.only_sample = some st.sample_counter) :
    collate_step args oracle st p = Except.error Panic.indexOutOfBounds := by
  cases p with
  | Sample pid tid ubt kbt =>
    show stepSample args st pid tid ubt kbt = _
    unfold stepSample
    cases ho : args.only_sample with
    | none =>
      dsimp only
      unfold sampleBody
      rw [hproc]
    | some k =>
      have hk : k = st.sample_counter := by
        rcases hsel with h1 | h1
        · rw [ho] at h1; cases h1
        · rw [ho] at h1; exact Option.some.inj h1
      dsimp only
      rw [if_neg (by simp [hk])]
      unfold sampleBody
      rw [hproc]
  | RawSample pid tid stack regs kbt =>
    show stepRawSample args oracle st pid tid stack regs kbt = _
    unfold stepRawSample
    cases ho : args.only_sample with
    | none =>
      dsimp only
      unfold rawSampleBody
      rw [hproc]
    | some k =>
      have hk : k = st.sample_counter := by
        rcases hsel with h1 | h1
        · rw [ho] at h1; cases h1
        · rw [ho] at h1; exact Option.some.inj h1
      dsimp only
      rw [if_neg (by simp [hk])]
      unfold rawSampleBody
      rw [hproc]
  | MachineInfo a b c => exact Bool.noConfusion hsc
  | ProcessInfo a b => exact Bool.noConfusion hsc
  | BinaryInfo a b c d => exact Bool.noConfusion hsc
  | MemoryRegionMap a b c d e f g i j k l m => exact Bool.noConfusion hsc
  | MemoryRegionUnmap a b c => exact Bool.noConfusion hsc
  | BinaryMap a b c => exact Bool.noConfusion hsc
  | BinaryUnmap a b => exact Bool.noConfusion hsc
  | StringTable a b c => exact Bool.noConfusion hsc
  | SymbolTable a b c d e => exact Bool.noConfusion hsc
  | BinaryBlob a b c => exact Bool.noConfusion hsc
  | FileBlob a b => exact Bool.noConfusion hsc
  | ThreadName a b => exact Bool.noConfusion hsc
  | Other => exact Bool.noConfusion hsc

/-- Claim C9: a `Sample` or `RawSample` that is selected for collation
(`only_sample` unset, or equal to the counter reached) and occurs before
any `ProcessInfo` packet makes `collate` panic by indexing `processes[0]`
on the empty process table, rather than returning an error value or
skipping the sample. -/
theorem c9_sample_before_processinfo {args : Args} {oracle : Oracles}
    {dbg : List (List Nat × List SymEntry)} {pre rest : List Packet}
    {p : Packet} {st : CollateState}
    (hpre : ∀ q ∈ pre, isProcessInfo q = false)
    (hrun : collate_run args oracle dbg pre = Except.ok st)
    (hsel : args.only_sample = none ∨
      args.only_sample = some st.sample_counter)
    (hsc : isSampleCarrying p = true) :
    collate_run args oracle dbg (pre ++ p :: rest) =
      Except.error Panic.indexOutOfBounds := by
  have hproc : st.processes = [] := by
    refine collate_run_from_induct_mem args oracle (fun s => s.processes = [])
      pre (initState dbg) st ?_ rfl hrun
    intro q hq s s' hP hstep
    exact c9_step_processes_nil (hpre q hq) hstep hP
  unfold collate_run at hrun ⊢
  rw [collate_run_from_append, hrun]
  simp only [collate_run_from]
  rw [c9_step_sample_empty hsc hproc hsel]

/-- Witness for C9: an immediate `Sample` with no prior `ProcessInfo`
panics with the out-of-bounds index. -/
theorem c9_witness :
    collate_run argsW oracleW [] [Packet.Sample 1 1 [] []] =
      Except.error Panic.indexOutOfBounds := by
  exact @c9_sample_before_processinfo argsW oracleW [] [] []
    (Packet.Sample 1 1 [] []) _ (by intro q hq; cases hq) rfl (Or.inl rfl) rfl

/-- A step on a packet of the stream preserves the invariant that every
string-table chunk recorded for a binary was announced by a `StringTable`
packet of the stream. -/
theorem c10_step_chunks {args : Args} {oracle : Oracles} {pre : List Packet}
    {st st' : CollateState} {q : Packet} (hq : q ∈ pre)
    (h : collate_step args oracle st q = Except.ok st')
    (hP : ∀ bid binary, assoc st.binary_by_id bid = some binary →
      ∀ c ∈ binary.string_tables.chunks,
        ∃ q' ∈ pre, stringTableOffsetFor bid q' = some c.1.1) :
    ∀ bid binary, assoc st'.binary_by_id bid = some binary →
      ∀ c ∈ binary.string_tables.chunks,
        ∃ q' ∈ pre, stringTableOffsetFor bid q' = some c.1.1 := by
  cases q with
  | BinaryInfo id cnt path dl =>
    simp only [collate_step] at h
    (repeat' split at h) <;>
      (cases Except.ok.inj h
       intro bid binary hbin c hc
       dsimp only at hbin
       rw [assoc_assocSet] at hbin
       by_cases hbid : id = bid
       · rw [if_pos hbid] at hbin
         cases Option.some.inj hbin
         simp at hc
       · rw [if_neg hbid] at hbin
         exact hP bid binary hbin c hc)
  | StringTable bid0 off data =>
    simp only [collate_step] at h
    cases hb : assoc st.binary_by_id bid0 with
    | none => rw [hb] at h; cases h
    | some binary1 =>
      rw [hb] at h
      dsimp only at h
      cases Except.ok.inj h
      intro bid binary hbin c hc
      dsimp only at hbin
      rw [assoc_assocSet] at hbin
      by_cases hbid : bid0 = bid
      · rw [if_pos hbid] at hbin
        cases Option.some.inj hbin
        subst hbid
        simp only [BinaryChunks.addChunk] at hc
        rcases List.mem_append.mp hc with hold | hnewc
        · exact hP bid0 binary1 hb c hold
        · have hce := List.mem_singleton.mp hnewc
          subst hce
          exact ⟨Packet.StringTable bid0 off data, hq,
            by simp [stringTableOffsetFor]⟩
      · rw [if_neg hbid] at hbin
        exact hP bid binary hbin c hc
  | SymbolTable bid0 off data stoff dyn =>
    simp only [collate_step] at h
    cases hb : assoc st.binary_by_id bid0 with
    | none => rw [hb] at h; cases h
    | some binary1 =>
      rw [hb] at h
      dsimp only at h
      cases hrng : binary1.string_tables.range_by_offset stoff with
      | none => rw [hrng] at h; cases h
      | some strr =>
        rw [hrng] at h
        dsimp only at h
        cases Except.ok.inj h
        intro bid binary hbin c hc
        dsimp only at hbin
        rw [assoc_assocSet] at hbin
        by_cases hbid : bid0 = bid
        · rw [if_pos hbid] at hbin
          cases Option.some.inj hbin
          subst hbid
          have hsame : ∀ b' : Binary,
              (if (binary1.symbol_tables ++
                  [({ range := (off, off + data.length), strtab_range := strr,
                      is_dynamic := dyn } : SymbolTable)]).length =
                  binary1.symbol_table_count
                then ({ binary1 with
                    symbols := some (oracle.loadSymbols
                      st.machine_architecture
                      (binary1.symbol_tables ++
                        [({ range := (off, off + data.length),
                            strtab_range := strr,
                            is_dynamic := dyn } : SymbolTable)])
                      (binary1.symbol_tables_chunks.addChunk off data)
                      binary1.string_tables),
                    symbol_tables := [],
                    symbol_tables_chunks := { chunks := [] } } : Binary)
                else ({ binary1 with
                    symbol_tables := binary1.symbol_tables ++
                      [({ range := (off, off + data.length),
                          strtab_range := strr,
                          is_dynamic := dyn } : SymbolTable)],
                    symbol_tables_chunks :=
                      binary1.symbol_tables_chunks.addChunk off data
                  } : Binary)) = b' →
                b'.string_tables = binary1.string_tables := by
            intro b' hb'
            rw [← hb']
            split <;> rfl
          rw [hsame _ rfl] at hc
          exact hP bid0 binary1 hb c hc
        · rw [if_neg hbid] at hbin
          exact hP bid binary hbin c hc
  | Sample pid tid ubt kbt =>
    rcases stepSample_inv h with ⟨_, hst⟩ | ⟨_, _, _, _, hcases⟩
    · subst hst; exact hP
    · rcases hcases with ⟨_, hst⟩ | ⟨_, sm, _, hst⟩
      · subst hst; exact hP
      · subst hst; exact hP
  | RawSample pid tid stack regs kbt =>
    rcases stepRawSample_inv h with ⟨_, hst⟩ | ⟨_, _, _, _, hcases⟩
    · subst hst; exact hP
    · rcases hcases with ⟨_, hst⟩ | ⟨_, hrest⟩
      · subst hst; exact hP
      · rcases hrest with ⟨_, hst⟩ | ⟨_, _, _, sm, _, _, hst⟩
        · subst hst; exact hP
        · subst hst; exact hP
  | MachineInfo a b c =>
    simp only [collate_step] at h
    cases Except.ok.inj h
    exact hP
  | ProcessInfo a b =>
    simp only [collate_step] at h
    cases Except.ok.inj h
    exact hP
  | MemoryRegionMap a b c d e f g i j k l m =>
    simp only [collate_step] at h
    (repeat' split at h) <;>
      first
        | (cases Except.ok.inj h; exact hP)
        | cases h
  | MemoryRegionUnmap a b c =>
    simp only [collate_step] at h
    (repeat' split at h) <;>
      first
        | (cases Except.ok.inj h; exact hP)
        | cases h
  | BinaryMap a b c =>
    simp only [collate_step] at h
    (repeat' split at h) <;>
      first
        | (cases Except.ok.inj h; exact hP)
        | cases h
  | BinaryUnmap a b =>
    simp only [collate_step] at h
    (repeat' split at h) <;>
      first
        | (cases Except.ok.inj h; exact hP)
        | cases h
  | BinaryBlob a b c =>
    simp only [collate_step] at h
    (repeat' split at h) <;>
      first
        | (cases Except.ok.inj h; exact hP)
        | cases h
  | FileBlob a b =>
    simp only [collate_step] at h
    (repeat' split at h) <;> (cases Except.ok.inj h; exact hP)
  | ThreadName a b =>
    simp only [collate_step] at h
    (repeat' split at h) <;> (cases Except.ok.inj h; exact hP)
  | Other =>
    simp only [collate_step] at h
    cases Except.ok.inj h
    exact hP

/-- Claim C10: a `SymbolTable` packet whose `string_table_offset` is not
the exact start offset of any previously received `StringTable` chunk of
the same (registered) binary makes `collate` panic inside
`BinaryChunks::range_by_offset` rather than return an error value. -/
theorem c10_symboltable_unknown_strtab_panics {args : Args}
    {oracle : Oracles} {dbg : List (List Nat × List SymEntry)}
    {pre : List Packet} {st : CollateState} {bid : BinaryId}
    {binary : Binary} {offset : Nat} {data : List Nat} {stoff : Nat}
    {dyn : Bool}
    (hrun : collate_run args oracle dbg pre = Except.ok st)
    (hreg : assoc st.binary_by_id bid = some binary)
    (hoff : ∀ q ∈ pre, stringTableOffsetFor bid q ≠ some stoff) :
    collate_run args oracle dbg
      (pre ++ [Packet.SymbolTable bid offset data stoff dyn]) =
      Except.error Panic.rangeByOffset := by
  have hinv := collate_run_from_induct_mem args oracle
    (fun s => ∀ bid' binary', assoc s.binary_by_id bid' = some binary' →
      ∀ c ∈ binary'.string_tables.chunks,
        ∃ q ∈ pre, stringTableOffsetFor bid' q = some c.1.1)
    pre (initState dbg) st
    (fun q hq s s' hP hstep => c10_step_chunks hq hstep hP)
    (by intro bid' binary' hbin; simp [initState, assoc] at hbin)
    hrun
  have hnone : binary.string_tables.range_by_offset stoff = none := by
    unfold BinaryChunks.range_by_offset
    rw [List.find?_eq_none.mpr ?_]
    · rfl
    · intro c hc
      rcases hinv bid binary hreg c hc with ⟨q, hqpre, hqoff⟩
      simp only [decide_eq_true_eq]
      intro heq
      rw [heq] at hqoff
      exact hoff q hqpre hqoff
  have hstep : collate_step args oracle st
      (Packet.SymbolTable bid offset data stoff dyn) =
      Except.error Panic.rangeByOffset := by
    simp only [collate_step]
    rw [hreg]
    dsimp only
    rw [hnone]
  unfold collate_run at hrun ⊢
  rw [collate_run_from_append, hrun]
  simp only [collate_run_from]
  rw [hstep]

/-- Witness for C10: a registered binary with no string-table chunks is
sent a `SymbolTable` packet naming string-table offset 99; the replay
panics in `range_by_offset`. -/
theorem c10_witness :
    collate_run argsW oracleW []
        ([Packet.BinaryInfo idW 1 "p" []] ++
          [Packet.SymbolTable idW 0 [1, 2] 99 false]) =
      Except.error Panic.rangeByOffset := by
  refine @c10_symboltable_unknown_strtab_panics argsW oracleW []
    [Packet.BinaryInfo idW 1 "p" []] _ idW _ 0 [1, 2] 99 false rfl rfl ?_
  intro q hq
  have hqe := List.mem_singleton.mp hq
  subst hqe
  decide

end NPerf
